import Mathlib

/-!
Verification of the CAIRE decision-tree frontend against its specification.

The TypeScript sources are shallowly embedded: plain JavaScript objects
(`Record<string, T>`) become association lists in insertion order with
pairwise-distinct keys, JavaScript numbers become exact rationals, optional
fields become `Option`, and the `T | null | undefined` distinctions are kept
wherever the code observes them.  Every definition mirrors one function of
the repository (file and symbol named in its doc comment); the few
definitions modelled from the specification text instead of code are marked
as such.
-/

set_option autoImplicit false

namespace Caire

/-! ## JavaScript object model

A `Record<string, α>` is an association list in property insertion order.
JavaScript objects never hold two properties with the same key: assignment
replaces the value in place, `delete` removes the entry.  All objects in
this development are built from `[]` by these operations, so distinct keys
are an invariant (stated explicitly where a proof needs it). -/

abbrev Obj (α : Type) := List (String × α)

/-- Property read `o[k]`: the value at key `k`, if present. -/
def objGet {α : Type} : Obj α → String → Option α
  | [], _ => none
  | p :: t, k => if p.1 = k then some p.2 else objGet t k

/-- Property write `o[k] = v`: replaces in place when the key exists
(JavaScript keeps the original insertion position), appends otherwise. -/
def objSet {α : Type} : Obj α → String → α → Obj α
  | [], k, v => [(k, v)]
  | p :: t, k, v => if p.1 = k then (k, v) :: t else p :: objSet t k v

/-- Property removal `delete o[k]`. -/
def objDelete {α : Type} (o : Obj α) (k : String) : Obj α :=
  o.filter (fun p => p.1 ≠ k)

/-- `Object.keys(o)` in property order. -/
def objKeys {α : Type} (o : Obj α) : List String :=
  o.map (fun p => p.1)

/-- `Object.values(o)` in property order. -/
def objValues {α : Type} (o : Obj α) : List α :=
  o.map (fun p => p.2)

theorem objGet_objSet {α : Type} (o : Obj α) (k : String) (v : α) (a : String) :
    objGet (objSet o k v) a = if a = k then some v else objGet o a := by
  induction o with
  | nil =>
    by_cases hak : a = k <;> simp [objSet, objGet, hak, Ne.symm]
  | cons p t ih =>
    by_cases hpk : p.1 = k
    · by_cases hak : a = k
      · simp [objSet, objGet, hpk, hak]
      · have hpa : ¬ p.1 = a := fun h => hak ((h.symm.trans hpk))
        simp [objSet, objGet, hpk, hak, Ne.symm hak, hpa]
    · by_cases hpa : p.1 = a
      · have hak : ¬ a = k := fun h => hpk (hpa.trans h)
        simp [objSet, objGet, hpk, hpa, hak]
      · simp [objSet, objGet, hpk, hpa, ih]

theorem mem_objKeys_objSet {α : Type} (o : Obj α) (k : String) (v : α) (a : String) :
    a ∈ objKeys (objSet o k v) ↔ a ∈ objKeys o ∨ a = k := by
  induction o with
  | nil => simp [objSet, objKeys, eq_comm]
  | cons p t ih =>
    by_cases hpk : p.1 = k
    · simp only [objSet, hpk, if_true, objKeys, List.map_cons, List.mem_cons]
      tauto
    · simp only [objSet, hpk, if_false, objKeys, List.map_cons, List.mem_cons] at ih ⊢
      rw [ih]
      tauto

theorem objKeys_objSet_of_mem {α : Type} (o : Obj α) (k : String) (v : α)
    (h : k ∈ objKeys o) : objKeys (objSet o k v) = objKeys o := by
  induction o with
  | nil => simp [objKeys] at h
  | cons p t ih =>
    by_cases hpk : p.1 = k
    · simp [objSet, objKeys, hpk]
    · have hk : k ∈ objKeys t := by
        simp only [objKeys, List.map_cons, List.mem_cons] at h
        rcases h with h | h
        · exact absurd h.symm hpk
        · exact h
      have hrec := ih hk
      simp only [objKeys] at hrec
      simp [objSet, objKeys, hpk, hrec]

theorem objKeys_nodup_objSet {α : Type} (o : Obj α) (k : String) (v : α)
    (h : (objKeys o).Nodup) : (objKeys (objSet o k v)).Nodup := by
  induction o with
  | nil => simp [objSet, objKeys]
  | cons p t ih =>
    simp only [objKeys, List.map_cons, List.nodup_cons] at h
    by_cases hpk : p.1 = k
    · simp only [objSet, hpk, if_true, objKeys, List.map_cons, List.nodup_cons]
      exact ⟨hpk ▸ h.1, h.2⟩
    · simp only [objSet, hpk, if_false, objKeys, List.map_cons, List.nodup_cons]
      refine ⟨fun hmem => ?_, ih h.2⟩
      rcases (mem_objKeys_objSet t k v p.1).mp hmem with hmem | hmem
      · exact h.1 hmem
      · exact hpk hmem

theorem objGet_objDelete {α : Type} (o : Obj α) (k : String) (a : String) :
    objGet (objDelete o k) a = if a = k then none else objGet o a := by
  induction o with
  | nil => by_cases hak : a = k <;> simp [objDelete, objGet, hak]
  | cons p t ih =>
    by_cases hpk : p.1 = k
    · by_cases hak : a = k
      · simpa [objDelete, objGet, hpk, hak] using ih
      · have hka : ¬ k = a := fun h => hak h.symm
        simpa [objDelete, objGet, hpk, hak, hka] using ih
    · by_cases hpa : p.1 = a
      · have hak : ¬ a = k := fun h => hpk (hpa.trans h)
        simp [objDelete, objGet, hpk, hpa, hak]
      · simpa [objDelete, objGet, hpk, hpa] using ih

theorem mem_objKeys_objDelete {α : Type} (o : Obj α) (k : String) (a : String) :
    a ∈ objKeys (objDelete o k) ↔ a ∈ objKeys o ∧ a ≠ k := by
  unfold objKeys objDelete
  simp only [List.mem_map, List.mem_filter, decide_eq_true_eq]
  constructor
  · rintro ⟨p, ⟨hp, hpk⟩, hpa⟩
    simp only [ne_eq, decide_not, Bool.not_eq_eq_eq_not, Bool.not_true,
      decide_eq_false_iff_not] at hpk
    exact ⟨⟨p, hp, hpa⟩, hpa ▸ hpk⟩
  · rintro ⟨⟨p, hp, hpa⟩, hak⟩
    refine ⟨p, ⟨hp, ?_⟩, hpa⟩
    simp only [ne_eq, decide_not, Bool.not_eq_eq_eq_not, Bool.not_true,
      decide_eq_false_iff_not]
    exact hpa ▸ hak

theorem objGet_isSome_of_mem_keys {α : Type} (o : Obj α) (k : String)
    (h : k ∈ objKeys o) : ∃ v, objGet o k = some v := by
  induction o with
  | nil => simp [objKeys] at h
  | cons p t ih =>
    by_cases hpk : p.1 = k
    · exact ⟨p.2, by simp [objGet, hpk]⟩
    · have hk : k ∈ objKeys t := by
        simp only [objKeys, List.map_cons, List.mem_cons] at h
        rcases h with h | h
        · exact absurd h.symm hpk
        · exact h
      simpa [objGet, hpk] using ih hk

theorem mem_keys_of_objGet_eq_some {α : Type} (o : Obj α) (k : String) (v : α)
    (h : objGet o k = some v) : k ∈ objKeys o ∧ v ∈ objValues o := by
  induction o with
  | nil => simp [objGet] at h
  | cons p t ih =>
    by_cases hpk : p.1 = k
    · simp only [objGet, hpk, if_true, Option.some.injEq] at h
      exact ⟨by simp [objKeys, hpk], by simp [objValues, h]⟩
    · simp only [objGet, hpk, if_false] at h
      rcases ih h with ⟨h1, h2⟩
      exact ⟨by simp [objKeys, List.mem_cons] at h1 ⊢; exact Or.inr h1,
             by simp [objValues, List.mem_cons] at h2 ⊢; exact Or.inr h2⟩

theorem objValues_objSet_subset {α : Type} (o : Obj α) (k : String) (v : α)
    (x : α) (h : x ∈ objValues (objSet o k v)) : x = v ∨ x ∈ objValues o := by
  induction o with
  | nil => simpa [objSet, objValues] using h
  | cons p t ih =>
    by_cases hpk : p.1 = k
    · simp only [objSet, hpk, if_true, objValues, List.map_cons, List.mem_cons] at h ⊢
      tauto
    · simp only [objSet, hpk, if_false, objValues, List.map_cons, List.mem_cons] at h ⊢
      rcases h with h | h
      · exact Or.inr (Or.inl h)
      · rcases ih h with h | h
        · exact Or.inl h
        · exact Or.inr (Or.inr h)

end Caire

namespace Caire

/-! ## Data model (src/frontend/src/types/decisionTree.ts)

`metadata` fields and the `terminology_mapping` field are opaque to every
claim under verification (no embedded function reads them) and are omitted
from the records. -/

/-- A JavaScript primitive value as it appears in tree payloads and test
inputs: `number | string | boolean | null`. -/
inductive JsVal : Type
  | num (n : ℚ)
  | str (s : String)
  | bool (b : Bool)
  | null
deriving DecidableEq, Repr

/-- `NodeType` (decisionTree.ts). -/
inductive NodeType : Type
  | root | question | condition | outcome | action | score
deriving DecidableEq, Repr

/-- `ConditionSpec` (decisionTree.ts).  The declared threshold type is
`number | string | boolean`; the embedding's `JsVal` also admits `null`,
which no source value inhabits. -/
structure ConditionSpec : Type where
  «variable» : String
  operator : String
  threshold : Option JsVal
  unit : Option String
deriving DecidableEq, Repr

/-- `ActionSpec` (decisionTree.ts); the `urgency_level` string-literal union
is kept as a plain string. -/
structure ActionSpec : Type where
  recommendation : String
  urgency_level : Option String
  code : Option String
deriving DecidableEq, Repr

/-- `DecisionNode` (decisionTree.ts). -/
structure DecisionNode : Type where
  id : String
  type : NodeType
  label : String
  description : Option String
  condition : Option ConditionSpec
  action : Option ActionSpec
  score_expression : Option String
  children : Option (List String)
deriving DecidableEq, Repr

/-- `DecisionVariable` (decisionTree.ts). -/
inductive VarType : Type
  | numeric | boolean | categorical
deriving DecidableEq, Repr

structure DecisionVariable : Type where
  name : String
  type : VarType
  units : Option String
  source : Option String
  description : Option String
deriving DecidableEq, Repr

/-- `Edge` (decisionTree.ts); the opaque `value` field is omitted. -/
structure Edge : Type where
  source_id : String
  target_id : String
  label : Option String
deriving DecidableEq, Repr

/-- `DecisionTreeDmn` (decisionTree.ts). -/
structure DecisionTreeDmn : Type where
  id : String
  version : String
  name : String
  description : Option String
  domain : String
  root_node_id : String
  nodes : Obj DecisionNode
  «variables» : List DecisionVariable
deriving DecidableEq, Repr

/-- `DecisionTreeLegacy` (decisionTree.ts): nodes as an array plus edges. -/
structure DecisionTreeLegacy : Type where
  id : String
  version : String
  name : String
  description : Option String
  nodes : List DecisionNode
  edges : List Edge
  root_id : Option String
deriving DecidableEq, Repr

/-- The `DecisionTree` union.  `isDmnTree` discriminates on
`root_node_id ∈ tree && nodes is a non-array object`, which separates the
two shapes exactly, so the union is embedded as a sum. -/
inductive DecisionTree : Type
  | dmn (t : DecisionTreeDmn)
  | legacy (t : DecisionTreeLegacy)
deriving DecidableEq, Repr

/-- `isDmnTree` (decisionTree.ts). -/
def isDmnTree : DecisionTree → Bool
  | .dmn _ => true
  | .legacy _ => false

/-- `getTreeNodes` (decisionTree.ts, lines 79–84): a DMN tree's record is
returned as-is; a legacy array is folded into a record keyed by node id,
later entries overwriting earlier ones.  (The declared return type also
mentions `DecisionNode[]`, but the implementation always returns the
record.) -/
def getTreeNodes : DecisionTree → Obj DecisionNode
  | .dmn t => t.nodes
  | .legacy t => t.nodes.foldl (fun acc n => objSet acc n.id n) []

/-- `getRootId` (decisionTree.ts). -/
def getRootId : DecisionTree → Option String
  | .dmn t => some t.root_node_id
  | .legacy t => t.root_id

/-- `getTreeVariables` (decisionTree.ts). -/
def getTreeVariables : DecisionTree → List DecisionVariable
  | .dmn t => t.«variables»
  | .legacy _ => []

theorem getTreeNodes_legacy_append (ns : List DecisionNode) (n : DecisionNode) :
    (ns ++ [n]).foldl (fun acc m => objSet acc m.id m) ([] : Obj DecisionNode)
      = objSet (ns.foldl (fun acc m => objSet acc m.id m) []) n.id n := by
  rw [List.foldl_append]
  rfl

theorem getTreeNodes_legacy_get (ns : List DecisionNode) (k : String) :
    objGet (ns.foldl (fun acc m => objSet acc m.id m) []) k
      = ns.reverse.find? (fun n => n.id = k) := by
  induction ns using List.reverseRecOn with
  | nil => rfl
  | append_singleton t n ih =>
    rw [getTreeNodes_legacy_append, objGet_objSet, List.reverse_append]
    simp only [List.reverse_cons, List.reverse_nil, List.nil_append, List.singleton_append]
    by_cases hk : k = n.id
    · rw [if_pos hk, List.find?_cons_of_pos _ (by simp [hk])]
    · rw [if_neg hk, ih, List.find?_cons_of_neg _ (by simpa using fun h => hk h.symm)]

theorem getTreeNodes_legacy_mem_keys (ns : List DecisionNode) (k : String) :
    k ∈ objKeys (ns.foldl (fun acc m => objSet acc m.id m) [])
      ↔ k ∈ ns.map (fun n => n.id) := by
  induction ns using List.reverseRecOn with
  | nil => simp [objKeys]
  | append_singleton t n ih =>
    rw [getTreeNodes_legacy_append, mem_objKeys_objSet, ih]
    simp [eq_comm]

theorem getTreeNodes_legacy_nodup (ns : List DecisionNode) :
    (objKeys (ns.foldl (fun acc m => objSet acc m.id m) [])).Nodup := by
  induction ns using List.reverseRecOn with
  | nil => simp [objKeys]
  | append_singleton t n ih =>
    rw [getTreeNodes_legacy_append]
    exact objKeys_nodup_objSet _ _ _ ih

/-! ## Tree editor operations (src/frontend/src/components/TreeEditor/TreeEditor.tsx)

`cloneTree` is `JSON.parse(JSON.stringify(t))`: a deep copy producing an
equal value that shares no substructure with the argument.  At the level of
tree values it is the identity, so the editor operations below are embedded
directly on the cloned value; the heap-level frame property is treated
separately (claim C5).  All three operations guard on `isDmnTree(next)`,
which holds for every DMN tree, so the embedding covers the DMN branch; on
a legacy tree each returns its argument unchanged. -/

/-- `Partial<DecisionNode>`: for each field, `none` means the property is
absent from the patch; for source-optional fields the inner `Option` is the
property's own value.  `Object.assign(node, patch)` overwrites exactly the
present fields. -/
structure NodePatch : Type where
  id : Option String
  type : Option NodeType
  label : Option String
  description : Option (Option String)
  condition : Option (Option ConditionSpec)
  action : Option (Option ActionSpec)
  score_expression : Option (Option String)
  children : Option (Option (List String))
deriving DecidableEq, Repr

/-- `Object.assign(node, patch)` for a `Partial<DecisionNode>` patch. -/
def applyPatch (n : DecisionNode) (p : NodePatch) : DecisionNode :=
  { id := p.id.getD n.id
    type := p.type.getD n.type
    label := p.label.getD n.label
    description := p.description.getD n.description
    condition := p.condition.getD n.condition
    action := p.action.getD n.action
    score_expression := p.score_expression.getD n.score_expression
    children := p.children.getD n.children }

/-- `addChildToTree` (TreeEditor.tsx, lines 33–51).  The generated id
`node-${Date.now()}-${random}` is passed in as `freshId`.  The new node is
written into `nodes` first; the parent is then looked up in the updated
record and, when found, gets the new id appended to its children, otherwise
`root_node_id` is redirected to the new node. -/
def addChildToTree (tree : DecisionTreeDmn) (parentId lbl : String)
    (ty : NodeType) (freshId : String) : DecisionTreeDmn :=
  let newNode : DecisionNode :=
    { id := freshId, type := ty, label := lbl, description := none,
      condition := none, action := none, score_expression := none,
      children := some [] }
  let nodes1 := objSet tree.nodes freshId newNode
  match objGet nodes1 parentId with
  | some parent =>
      let parent2 : DecisionNode :=
        { parent with children := some (parent.children.getD [] ++ [freshId]) }
      { tree with nodes := objSet nodes1 parentId parent2 }
  | none => { tree with nodes := nodes1, root_node_id := freshId }

/-- Rewrites every stored value with `f`, keeping keys and order: the
`Object.values(nodes).forEach` mutation pattern. -/
def mapValues {α : Type} (o : Obj α) (f : α → α) : Obj α :=
  o.map (fun p => (p.1, f p.2))

/-- The `forEach` body of `deleteNodeFromTree`: drop `nodeId` from a node's
children list, when one is present. -/
def stripChild (nodeId : String) (n : DecisionNode) : DecisionNode :=
  { n with children := n.children.map (fun cs => cs.filter (fun c => c ≠ nodeId)) }

/-- `deleteNodeFromTree` (TreeEditor.tsx, lines 53–66): removes the node,
filters the id out of every remaining children list, and, if the root was
deleted, re-points `root_node_id` at the first remaining key — or `''` when
none remains. -/
def deleteNodeFromTree (tree : DecisionTreeDmn) (nodeId : String) : DecisionTreeDmn :=
  let nodes2 := mapValues (objDelete tree.nodes nodeId) (stripChild nodeId)
  { tree with
    nodes := nodes2
    root_node_id := (if tree.root_node_id = nodeId then (objKeys nodes2).headD "" else tree.root_node_id) }

/-- `updateNodeInTree` (TreeEditor.tsx, lines 68–76): merges the patch into
the stored node (the record key is untouched even when the patch rewrites
the `id` field); returns the tree unchanged when the node is absent. -/
def updateNodeInTree (tree : DecisionTreeDmn) (nodeId : String) (patch : NodePatch) :
    DecisionTreeDmn :=
  match objGet tree.nodes nodeId with
  | none => tree
  | some node => { tree with nodes := objSet tree.nodes nodeId (applyPatch node patch) }

/-! ## The DMN structural invariant (spec §3) -/

/-- Every id referenced in any node's children list is a key of `nodes`,
and `root_node_id` is a key of `nodes` (executable form). -/
def treeInvariant (t : DecisionTreeDmn) : Bool :=
  ((objValues t.nodes).all fun n =>
      (n.children.getD []).all fun c => (objKeys t.nodes).contains c)
    && (objKeys t.nodes).contains t.root_node_id

/-- The invariant as a proposition. -/
def TreeInv (t : DecisionTreeDmn) : Prop :=
  (∀ n ∈ objValues t.nodes, ∀ c ∈ n.children.getD [], c ∈ objKeys t.nodes) ∧
    t.root_node_id ∈ objKeys t.nodes

theorem treeInvariant_iff (t : DecisionTreeDmn) : treeInvariant t = true ↔ TreeInv t := by
  simp [treeInvariant, TreeInv, List.all_eq_true, List.elem_iff]

theorem objKeys_mapValues {α : Type} (o : Obj α) (f : α → α) :
    objKeys (mapValues o f) = objKeys o := by
  simp only [objKeys, mapValues, List.map_map]
  rfl

theorem objValues_mapValues {α : Type} (o : Obj α) (f : α → α) :
    objValues (mapValues o f) = (objValues o).map f := by
  simp only [objValues, mapValues, List.map_map]
  rfl

theorem headD_mem_of_ne_nil {α : Type} (l : List α) (d : α) (h : l ≠ []) :
    l.headD d ∈ l := by
  cases l with
  | nil => exact absurd rfl h
  | cons a t => simp [List.headD]

theorem TreeInv_addChildToTree (t : DecisionTreeDmn) (hInv : TreeInv t)
    (parentId lbl : String) (ty : NodeType) (freshId : String) :
    TreeInv (addChildToTree t parentId lbl ty freshId) := by
  unfold addChildToTree
  dsimp only
  split
  case _ parent hfind =>
    have hparent := mem_keys_of_objGet_eq_some _ parentId parent hfind
    refine ⟨?_, ?_⟩
    · intro n hn c hc
      rcases objValues_objSet_subset _ parentId _ n hn with rfl | hn
      · have hc' : c ∈ parent.children.getD [] ++ [freshId] := hc
        rw [List.mem_append, List.mem_singleton] at hc'
        refine (mem_objKeys_objSet _ _ _ c).mpr ?_
        rcases hc' with hc' | rfl
        · rcases objValues_objSet_subset t.nodes freshId _ parent hparent.2 with rfl | hpmem
          · have hnil : c ∈ ([] : List String) := hc'
            simp at hnil
          · exact Or.inl ((mem_objKeys_objSet _ _ _ c).mpr (Or.inl (hInv.1 parent hpmem c hc')))
        · exact Or.inl ((mem_objKeys_objSet _ _ _ c).mpr (Or.inr rfl))
      · rcases objValues_objSet_subset t.nodes freshId _ n hn with rfl | hn
        · have hnil : c ∈ ([] : List String) := hc
          simp at hnil
        · exact (mem_objKeys_objSet _ _ _ c).mpr
            (Or.inl ((mem_objKeys_objSet _ _ _ c).mpr (Or.inl (hInv.1 n hn c hc))))
    · exact (mem_objKeys_objSet _ _ _ _).mpr
        (Or.inl ((mem_objKeys_objSet _ _ _ _).mpr (Or.inl hInv.2)))
  case _ hfind =>
    refine ⟨?_, ?_⟩
    · intro n hn c hc
      rcases objValues_objSet_subset t.nodes freshId _ n hn with rfl | hn
      · have hnil : c ∈ ([] : List String) := hc
        simp at hnil
      · exact (mem_objKeys_objSet _ _ _ c).mpr (Or.inl (hInv.1 n hn c hc))
    · exact (mem_objKeys_objSet _ _ _ freshId).mpr (Or.inr rfl)

theorem deleteNodeFromTree_nodes (t : DecisionTreeDmn) (nodeId : String) :
    (deleteNodeFromTree t nodeId).nodes
      = mapValues (objDelete t.nodes nodeId) (stripChild nodeId) := rfl

theorem deleteNodeFromTree_root (t : DecisionTreeDmn) (nodeId : String) :
    (deleteNodeFromTree t nodeId).root_node_id
      = if t.root_node_id = nodeId
        then (objKeys (mapValues (objDelete t.nodes nodeId) (stripChild nodeId))).headD ""
        else t.root_node_id := by rfl

theorem TreeInv_deleteNodeFromTree (t : DecisionTreeDmn) (hInv : TreeInv t)
    (nodeId : String) (hrem : ∃ k ∈ objKeys t.nodes, k ≠ nodeId) :
    TreeInv (deleteNodeFromTree t nodeId) := by
  have hkeys : objKeys (mapValues (objDelete t.nodes nodeId) (stripChild nodeId))
      = objKeys (objDelete t.nodes nodeId) := objKeys_mapValues _ _
  have hkeys1 : ∀ a, a ∈ objKeys (objDelete t.nodes nodeId)
      ↔ a ∈ objKeys t.nodes ∧ a ≠ nodeId :=
    fun a => mem_objKeys_objDelete t.nodes nodeId a
  have hne : objKeys (mapValues (objDelete t.nodes nodeId) (stripChild nodeId)) ≠ [] := by
    rcases hrem with ⟨k, hk, hkne⟩
    intro hnil
    have hkmem : k ∈ objKeys (mapValues (objDelete t.nodes nodeId) (stripChild nodeId)) := by
      rw [hkeys]
      exact (hkeys1 k).mpr ⟨hk, hkne⟩
    rw [hnil] at hkmem
    exact absurd hkmem (List.not_mem_nil k)
  refine ⟨?_, ?_⟩
  · intro n hn c hc
    rw [deleteNodeFromTree_nodes, objValues_mapValues] at hn
    rcases List.mem_map.mp hn with ⟨m, hm, rfl⟩
    have hm' : m ∈ objValues t.nodes := by
      rcases List.mem_map.mp hm with ⟨p, hp, rfl⟩
      exact List.mem_map_of_mem _ (List.mem_of_mem_filter hp)
    have hcc : c ∈ (m.children.getD []).filter (fun x => x ≠ nodeId) := by
      cases hch : m.children with
      | none => simp [stripChild, hch] at hc
      | some cs => simpa [stripChild, hch] using hc
    have hcm := List.mem_of_mem_filter hcc
    have hcne : c ≠ nodeId := by
      have := List.of_mem_filter hcc
      simpa using this
    rw [deleteNodeFromTree_nodes, hkeys]
    exact (hkeys1 c).mpr ⟨hInv.1 m hm' c hcm, hcne⟩
  · rw [deleteNodeFromTree_nodes, deleteNodeFromTree_root]
    by_cases hroot : t.root_node_id = nodeId
    · simp only [hroot, if_true]
      exact headD_mem_of_ne_nil _ _ hne
    · simp only [hroot, if_false]
      rw [hkeys]
      exact (hkeys1 t.root_node_id).mpr ⟨hInv.2, hroot⟩

theorem TreeInv_updateNodeInTree (t : DecisionTreeDmn) (hInv : TreeInv t)
    (nodeId : String) (patch : NodePatch)
    (hpatch : ∀ cs, patch.children = some (some cs) → ∀ c ∈ cs, c ∈ objKeys t.nodes) :
    TreeInv (updateNodeInTree t nodeId patch) := by
  unfold updateNodeInTree
  split
  case _ hfind => exact hInv
  case _ node hfind =>
    have hnode := mem_keys_of_objGet_eq_some t.nodes nodeId node hfind
    have hkeys : objKeys (objSet t.nodes nodeId (applyPatch node patch)) = objKeys t.nodes :=
      objKeys_objSet_of_mem t.nodes nodeId (applyPatch node patch) hnode.1
    refine ⟨?_, ?_⟩
    · intro n hn c hc
      have hgoal : c ∈ objKeys t.nodes → c ∈ objKeys (objSet t.nodes nodeId (applyPatch node patch)) := by
        intro h
        rw [hkeys]
        exact h
      apply hgoal
      rcases objValues_objSet_subset t.nodes nodeId (applyPatch node patch) n hn with rfl | hn
      · cases hch : patch.children with
        | none =>
          have hsame : (applyPatch node patch).children = node.children := by
            simp [applyPatch, hch]
          rw [hsame] at hc
          exact hInv.1 node hnode.2 c hc
        | some cso =>
          cases cso with
          | none =>
            have hnone : (applyPatch node patch).children = none := by
              simp [applyPatch, hch]
            rw [hnone] at hc
            simp at hc
          | some cs =>
            have hsome : (applyPatch node patch).children = some cs := by
              simp [applyPatch, hch]
            rw [hsome] at hc
            exact hpatch cs hch c (by simpa using hc)
      · exact hInv.1 n hn c hc
    · have : t.root_node_id ∈ objKeys (objSet t.nodes nodeId (applyPatch node patch)) := by
        rw [hkeys]
        exact hInv.2
      exact this

/-- One-node tree used to exhibit the failure of the invariant claim. -/
def exTreeC1 : DecisionTreeDmn :=
  { id := "t1", version := "1.0", name := "ex", description := none,
    domain := "triage", root_node_id := "a",
    nodes := [("a", { id := "a", type := .action, label := "done",
                      description := none, condition := none, action := none,
                      score_expression := none, children := none })],
    «variables» := [] }

/-- Two-node tree used to exhibit the failure through `updateNodeInTree`. -/
def exTreeC1b : DecisionTreeDmn :=
  { id := "t2", version := "1.0", name := "ex2", description := none,
    domain := "triage", root_node_id := "a",
    nodes := [("a", { id := "a", type := .condition, label := "q",
                      description := none, condition := none, action := none,
                      score_expression := none, children := some ["b"] }),
              ("b", { id := "b", type := .action, label := "act",
                      description := none, condition := none, action := none,
                      score_expression := none, children := none })],
    «variables» := [] }

/-- A patch whose new children list references an id that is not a key. -/
def exPatchC1 : NodePatch :=
  { id := none, type := none, label := none, description := none,
    condition := none, action := none, score_expression := none,
    children := some (some ["ghost"]) }

/-- C1 counterexample: the claim fails as stated.  Deleting the only node of
a one-node tree leaves `root_node_id = ''` with an empty `nodes` record, and
updating a node with a patch whose children reference a non-key dangles — in
both cases the result violates the invariant although the input satisfied
it. -/
theorem C1_counterexample :
    treeInvariant exTreeC1 = true ∧
    treeInvariant (deleteNodeFromTree exTreeC1 "a") = false ∧
    treeInvariant exTreeC1b = true ∧
    treeInvariant (updateNodeInTree exTreeC1b "a" exPatchC1) = false := by
  refine ⟨by decide, by decide, by decide, by decide⟩

/-- C1 amended: on a tree satisfying the invariant, `addChildToTree` always
preserves it; `updateNodeInTree` preserves it provided every id in a
children list carried by the patch is a key of `nodes`; `deleteNodeFromTree`
preserves it provided some key other than the deleted id remains. -/
theorem C1_editor_ops_preserve_invariant (t : DecisionTreeDmn)
    (hInv : treeInvariant t = true) :
    (∀ parentId lbl ty freshId,
        treeInvariant (addChildToTree t parentId lbl ty freshId) = true) ∧
    (∀ nodeId patch,
        (∀ cs, patch.children = some (some cs) → ∀ c ∈ cs, c ∈ objKeys t.nodes) →
        treeInvariant (updateNodeInTree t nodeId patch) = true) ∧
    (∀ nodeId, (∃ k ∈ objKeys t.nodes, k ≠ nodeId) →
        treeInvariant (deleteNodeFromTree t nodeId) = true) := by
  rw [treeInvariant_iff] at hInv
  refine ⟨?_, ?_, ?_⟩
  · intro parentId lbl ty freshId
    exact (treeInvariant_iff _).mpr (TreeInv_addChildToTree t hInv parentId lbl ty freshId)
  · intro nodeId patch hpatch
    exact (treeInvariant_iff _).mpr (TreeInv_updateNodeInTree t hInv nodeId patch hpatch)
  · intro nodeId hrem
    exact (treeInvariant_iff _).mpr (TreeInv_deleteNodeFromTree t hInv nodeId hrem)

/-- C1 witness: the amended theorem applied to a concrete two-node tree. -/
theorem C1_editor_ops_preserve_invariant_witness :
    treeInvariant (addChildToTree exTreeC1b "a" "new" .condition "c") = true ∧
    treeInvariant (updateNodeInTree exTreeC1b "a"
      { id := none, type := none, label := some "renamed", description := none,
        condition := none, action := none, score_expression := none,
        children := some (some ["b"]) }) = true ∧
    treeInvariant (deleteNodeFromTree exTreeC1b "b") = true := by
  have h := C1_editor_ops_preserve_invariant exTreeC1b (by decide)
  refine ⟨h.1 "a" "new" .condition "c", ?_, ?_⟩
  · refine h.2.1 "a" _ ?_
    intro cs hcs c hc
    simp only [Option.some.injEq] at hcs
    subst hcs
    simp only [List.mem_singleton] at hc
    subst hc
    decide
  · refine h.2.2 "b" ⟨"a", by decide, by decide⟩

/-- C8: for a legacy tree (array-shaped `nodes`), `getTreeNodes` returns a
record whose key set is exactly the set of ids occurring in the array, each
key mapping to the last array entry bearing that id, and the resulting key
list has no duplicates. -/
theorem C8_getTreeNodes_legacy_last_wins (l : DecisionTreeLegacy) :
    (∀ k, k ∈ objKeys (getTreeNodes (.legacy l)) ↔ k ∈ l.nodes.map (fun n => n.id)) ∧
    (∀ k, objGet (getTreeNodes (.legacy l)) k = l.nodes.reverse.find? (fun n => n.id = k)) ∧
    (objKeys (getTreeNodes (.legacy l))).Nodup := by
  refine ⟨fun k => ?_, fun k => ?_, ?_⟩
  · exact getTreeNodes_legacy_mem_keys l.nodes k
  · exact getTreeNodes_legacy_get l.nodes k
  · exact getTreeNodes_legacy_nodup l.nodes

/-! ## Heap-level frame property of the editor operations (C5)

The editor operations receive a reference to a tree object and begin with
`const next = cloneTree(tree)` where `cloneTree` is
`JSON.parse(JSON.stringify(t))`: a deep copy that shares **no** object with
its argument.  Every subsequent statement mutates objects reached from
`next` only.  Because the clone is deep, a whole tree value can be modelled
as a single heap cell: cloning allocates a fresh cell holding the same
value, and the operations' mutations are the functional updates (embedded
above) applied to the fresh cell.  The argument cell is never written. -/

/-- A heap of tree objects: cells below `next` may be live, cells at or
above `next` are unallocated. -/
structure Heap : Type where
  mem : Nat → Option DecisionTreeDmn
  next : Nat

/-- Heap well-formedness: addresses at or beyond the allocation frontier
are empty. -/
def Heap.WF (h : Heap) : Prop := ∀ a, h.next ≤ a → h.mem a = none

/-- Allocate a fresh cell holding `t`. -/
def Heap.alloc (h : Heap) (t : DecisionTreeDmn) : Heap × Nat :=
  ({ mem := fun x => if x = h.next then some t else h.mem x, next := h.next + 1 }, h.next)

/-- Overwrite the cell at `a` (the net effect of the editor operations'
field mutations on the clone). -/
def Heap.write (h : Heap) (a : Nat) (t : DecisionTreeDmn) : Heap :=
  { mem := fun x => if x = a then some t else h.mem x, next := h.next }

/-- `addChildToTree` as a heap transformer: clone the argument into a fresh
cell, apply the mutations there, return the clone's address.  A dangling
argument address is returned unchanged (the JavaScript call would throw
before mutating anything). -/
def addChildToTreeS (h : Heap) (a : Nat) (parentId lbl : String)
    (ty : NodeType) (freshId : String) : Heap × Nat :=
  match h.mem a with
  | none => (h, a)
  | some t =>
    let al := h.alloc t
    (al.1.write al.2 (addChildToTree t parentId lbl ty freshId), al.2)

/-- `deleteNodeFromTree` as a heap transformer. -/
def deleteNodeFromTreeS (h : Heap) (a : Nat) (nodeId : String) : Heap × Nat :=
  match h.mem a with
  | none => (h, a)
  | some t =>
    let al := h.alloc t
    (al.1.write al.2 (deleteNodeFromTree t nodeId), al.2)

/-- `updateNodeInTree` as a heap transformer. -/
def updateNodeInTreeS (h : Heap) (a : Nat) (nodeId : String) (patch : NodePatch) :
    Heap × Nat :=
  match h.mem a with
  | none => (h, a)
  | some t =>
    let al := h.alloc t
    (al.1.write al.2 (updateNodeInTree t nodeId patch), al.2)

theorem alloc_write_preserves (h : Heap) (t u : DecisionTreeDmn) (a : Nat)
    (hWF : Heap.WF h) (ha : h.mem a = some t) :
    ((h.alloc t).1.write (h.alloc t).2 u).mem a = some t := by
  have hlt : a < h.next := by
    by_contra hge
    rw [hWF a (Nat.le_of_not_lt hge)] at ha
    exact Option.noConfusion ha
  have hne : a ≠ h.next := Nat.ne_of_lt hlt
  simp [Heap.alloc, Heap.write, hne, ha]

/-- C5: none of the three editor operations mutates the tree passed as
argument — after the call the argument's heap cell holds the identical
value (all modifications land on the deep clone). -/
theorem C5_editor_ops_do_not_mutate_argument (h : Heap) (a : Nat)
    (t : DecisionTreeDmn) (hWF : Heap.WF h) (ha : h.mem a = some t) :
    (∀ parentId lbl ty freshId,
        (addChildToTreeS h a parentId lbl ty freshId).1.mem a = some t) ∧
    (∀ nodeId, (deleteNodeFromTreeS h a nodeId).1.mem a = some t) ∧
    (∀ nodeId patch, (updateNodeInTreeS h a nodeId patch).1.mem a = some t) := by
  refine ⟨?_, ?_, ?_⟩
  · intro parentId lbl ty freshId
    unfold addChildToTreeS
    rw [ha]
    exact alloc_write_preserves h t _ a hWF ha
  · intro nodeId
    unfold deleteNodeFromTreeS
    rw [ha]
    exact alloc_write_preserves h t _ a hWF ha
  · intro nodeId patch
    unfold updateNodeInTreeS
    rw [ha]
    exact alloc_write_preserves h t _ a hWF ha

/-- A one-cell heap holding the example tree at address 0. -/
def exHeapC5 : Heap :=
  { mem := fun x => if x = 0 then some exTreeC1b else none, next := 1 }

theorem exHeapC5_WF : Heap.WF exHeapC5 := by
  intro a ha
  change 1 ≤ a at ha
  show (if a = 0 then some exTreeC1b else none) = none
  rw [if_neg (by omega)]

/-- C5 witness: the frame theorem applied to a concrete heap and tree. -/
theorem C5_editor_ops_do_not_mutate_argument_witness :
    ((addChildToTreeS exHeapC5 0 "a" "new" .condition "c").1.mem 0 = some exTreeC1b) ∧
    ((deleteNodeFromTreeS exHeapC5 0 "b").1.mem 0 = some exTreeC1b) ∧
    ((updateNodeInTreeS exHeapC5 0 "a" exPatchC1).1.mem 0 = some exTreeC1b) := by
  have h := C5_editor_ops_do_not_mutate_argument exHeapC5 0 exTreeC1b exHeapC5_WF (by rfl)
  exact ⟨h.1 "a" "new" .condition "c", h.2.1 "b", h.2.2 "a" exPatchC1⟩

/-! ## Validation error display severity
(src/frontend/src/components/TreeEditor/NodeEditModal.tsx, lines 274-279) -/

/-- `ValidationErrorItem` (src/frontend/src/api/trees.ts). -/
structure ValidationErrorItem : Type where
  code : String
  message : String
  node_id : Option String
  path : Option (List String)
deriving DecidableEq, Repr

inductive Severity : Type
  | error | warning | info
deriving DecidableEq, Repr

/-- `pat` occurs at the start of `l`. -/
def charsStartWith : List Char → List Char → Bool
  | _, [] => true
  | [], _ :: _ => false
  | a :: as, b :: bs => a = b && charsStartWith as bs

/-- `String.prototype.includes`: `pat` occurs somewhere in `l`. -/
def charsContain (l pat : List Char) : Bool :=
  match l with
  | [] => charsStartWith [] pat
  | _ :: t => charsStartWith l pat || charsContain t pat

/-- JavaScript `s.includes(pat)`. -/
def strContains (s pat : String) : Bool :=
  charsContain s.data pat.data

/-- JavaScript `s.toLowerCase()`, restricted to the ASCII range covering
every validation code the backend emits. -/
def strToLower (s : String) : String :=
  ⟨s.data.map Char.toLower⟩

/-- `inferSeverity` (NodeEditModal.tsx, lines 274-279).  `err.code ?? ''`
is the identity under the declared type, where `code` is a plain string. -/
def inferSeverity (err : ValidationErrorItem) : Severity :=
  let c := strToLower err.code
  if strContains c "missing" || strContains c "cycle" || strContains c "invalid" then .error
  else if strContains c "warn" then .warning
  else .info

/-- The `unit_mismatch` error item as the backend reports it. -/
def exErrC3 : ValidationErrorItem :=
  { code := "unit_mismatch", message := "unit mismatch", node_id := some "n1", path := none }

/-- C3 counterexample: `inferSeverity` classifies a `unit_mismatch` item as
`info`, not `warning` — the lowercased code contains none of `missing`,
`cycle`, `invalid`, `warn`. -/
theorem C3_counterexample :
    inferSeverity exErrC3 ≠ Severity.warning ∧ inferSeverity exErrC3 = Severity.info := by
  refine ⟨by decide, by decide⟩

/-- C3 amended: for every validation error item whose code is
`unit_mismatch`, the severity assigned for display by `inferSeverity` is
`info` (non-fatal) — not `error`, and also not `warning`. -/
theorem C3_unit_mismatch_severity (msg : String) (nid : Option String)
    (p : Option (List String)) :
    inferSeverity { code := "unit_mismatch", message := msg, node_id := nid, path := p }
      = Severity.info := by
  rfl

/-! ## Variable manager (src/unnamed/part_008, `VariableManager`) -/

/-- JavaScript `s.trim()` (ASCII/Unicode whitespace at both ends). -/
def jsTrim (s : String) : String :=
  ⟨((s.data.dropWhile Char.isWhitespace).reverse.dropWhile Char.isWhitespace).reverse⟩

/-- `collectVariableUsage` (part_008, lines 4–11): names referenced by some
node's condition.  `if (v) used.add(v)` skips the empty string, the only
falsy string. -/
def usedVariables (tree : DecisionTreeDmn) : List String :=
  (objValues tree.nodes).filterMap (fun n =>
    n.condition.bind (fun c => if c.«variable» = "" then none else some c.«variable»))

/-- `handleAdd` (part_008, lines 29–46): trims the name, refuses an empty
or duplicate name, otherwise appends a variable built from the trimmed
fields (`trim() || undefined` for units and source). -/
def handleAdd (tree : DecisionTreeDmn) (newName : String) (newType : VarType)
    (newUnits newSource : String) : DecisionTreeDmn :=
  let name := jsTrim newName
  if name = "" then tree
  else if tree.«variables».any (fun v => v.name = name) then tree
  else
    { tree with «variables» := tree.«variables» ++
        [{ name := name, type := newType,
           units := (if jsTrim newUnits = "" then none else some (jsTrim newUnits)),
           source := (if jsTrim newSource = "" then none else some (jsTrim newSource)),
           description := none }] }

/-- `Partial<DecisionVariable>` patches passed to `handleUpdate`. -/
structure VarPatch : Type where
  name : Option String
  type : Option VarType
  units : Option (Option String)
  source : Option (Option String)
  description : Option (Option String)
deriving DecidableEq, Repr

/-- The spread `{ ...v, ...patch }`. -/
def applyVarPatch (v : DecisionVariable) (p : VarPatch) : DecisionVariable :=
  { name := p.name.getD v.name
    type := p.type.getD v.type
    units := p.units.getD v.units
    source := p.source.getD v.source
    description := p.description.getD v.description }

/-- `handleUpdate` (part_008, lines 48–53): copies the list and merges the
patch into the element at `index`.  The UI calls it only with an index into
the rendered list; an out-of-range index is modelled as no change. -/
def handleUpdate (tree : DecisionTreeDmn) (index : Nat) (patch : VarPatch) : DecisionTreeDmn :=
  if h : index < tree.«variables».length then
    { tree with «variables» :=
        tree.«variables».set index (applyVarPatch (tree.«variables».get ⟨index, h⟩) patch) }
  else tree

/-- `handleDelete` (part_008, lines 55–64): when the variable is in use the
deletion goes through only if `window.confirm` was accepted (passed in as
`confirmed`); the surviving list keeps every variable with a different
name. -/
def handleDelete (tree : DecisionTreeDmn) (v : DecisionVariable) (confirmed : Bool) :
    DecisionTreeDmn :=
  if (usedVariables tree).contains v.name && !confirmed then tree
  else { tree with «variables» := tree.«variables».filter (fun x => x.name ≠ v.name) }

/-- The names in `tree.variables` are pairwise distinct (spec §3). -/
def VarNamesDistinct (tree : DecisionTreeDmn) : Prop :=
  (tree.«variables».map (fun v => v.name)).Nodup

instance (tree : DecisionTreeDmn) : Decidable (VarNamesDistinct tree) := by
  unfold VarNamesDistinct
  infer_instance

theorem nodup_set {α : Type} (l : List α) (i : Nat) (x : α) (h : l.Nodup)
    (hx : ∀ j (hj : j < l.length), j ≠ i → l.get ⟨j, hj⟩ ≠ x) :
    (l.set i x).Nodup := by
  induction l generalizing i with
  | nil => simp
  | cons a t ih =>
    rw [List.nodup_cons] at h
    cases i with
    | zero =>
      rw [List.set_cons_zero, List.nodup_cons]
      refine ⟨?_, h.2⟩
      intro hmem
      rcases List.mem_iff_get.mp hmem with ⟨m, hm⟩
      exact hx (m.1 + 1) (Nat.succ_lt_succ m.2) (Nat.succ_ne_zero m.1) hm
    | succ k =>
      rw [List.set_cons_succ, List.nodup_cons]
      refine ⟨?_, ih k h.2 ?_⟩
      · intro hmem
        rcases List.mem_or_eq_of_mem_set hmem with hmem | rfl
        · exact h.1 hmem
        · exact hx 0 (Nat.succ_pos _) (by omega) rfl
      · intro j hj hne
        have := hx (j + 1) (Nat.succ_lt_succ hj)
          (fun hc => hne (Nat.succ_injective hc))
        simpa using this

/-- Two-variable tree for the variable-manager claims. -/
def exTreeC4 : DecisionTreeDmn :=
  { id := "t4", version := "1.0", name := "vars", description := none,
    domain := "triage", root_node_id := "r",
    nodes := [("r", { id := "r", type := .action, label := "done",
                      description := none, condition := none, action := none,
                      score_expression := none, children := none })],
    «variables» :=
      [{ name := "spo2", type := .numeric, units := some "%", source := none,
         description := none },
       { name := "hr", type := .numeric, units := none, source := none,
         description := none }] }

/-- A rename patch that collides with the other variable's name. -/
def exPatchC4 : VarPatch :=
  { name := some "hr", type := none, units := none, source := none, description := none }

/-- C4 counterexample: `handleUpdate` can rename a variable onto another
variable's name, so it does not preserve pairwise-distinct names — here
renaming `spo2` to `hr` yields the name list `[hr, hr]`. -/
theorem C4_counterexample :
    VarNamesDistinct exTreeC4 ∧ ¬ VarNamesDistinct (handleUpdate exTreeC4 0 exPatchC4) := by
  refine ⟨by decide, by decide⟩

/-- C4 amended: `handleAdd` and `handleDelete` always preserve pairwise
distinct variable names, and adding a variable whose trimmed name equals an
existing name leaves the tree unchanged; `handleUpdate` preserves
distinctness provided the patch carries no name equal to a *different*
variable's name. -/
theorem C4_variable_ops_preserve_distinct_names (t : DecisionTreeDmn)
    (hInv : VarNamesDistinct t) :
    (∀ nm ty u src, VarNamesDistinct (handleAdd t nm ty u src)) ∧
    (∀ nm ty u src, t.«variables».any (fun v => v.name = jsTrim nm) = true →
        handleAdd t nm ty u src = t) ∧
    (∀ v c, VarNamesDistinct (handleDelete t v c)) ∧
    (∀ i patch,
        (∀ nm, patch.name = some nm →
          ∀ j (hj : j < t.«variables».length), j ≠ i →
            (t.«variables».get ⟨j, hj⟩).name ≠ nm) →
        VarNamesDistinct (handleUpdate t i patch)) := by
  refine ⟨?_, ?_, ?_, ?_⟩
  · intro nm ty u src
    unfold handleAdd
    dsimp only
    by_cases hempty : jsTrim nm = ""
    · simpa [hempty] using hInv
    · by_cases hdup : t.«variables».any (fun v => v.name = jsTrim nm)
      · simpa [hempty, hdup] using hInv
      · simp only [hempty, hdup, if_false, Bool.false_eq_true]
        unfold VarNamesDistinct
        simp only [List.map_append, List.map_cons, List.map_nil]
        rw [List.nodup_append]
        refine ⟨hInv, List.nodup_singleton _, ?_⟩
        intro a ha hb
        simp only [List.mem_singleton] at hb
        subst hb
        rcases List.mem_map.mp ha with ⟨v, hv, hvn⟩
        rw [List.any_eq_true] at hdup
        exact hdup ⟨v, hv, by simpa using hvn⟩
  · intro nm ty u src hdup
    unfold handleAdd
    dsimp only
    by_cases hempty : jsTrim nm = ""
    · simp [hempty]
    · simp [hempty, hdup]
  · intro v c
    unfold handleDelete
    by_cases hgo : ((usedVariables t).contains v.name && !c) = true
    · rw [if_pos hgo]
      exact hInv
    · rw [if_neg hgo]
      unfold VarNamesDistinct
      exact List.Nodup.sublist ((List.filter_sublist _).map _) hInv
  · intro i patch hname
    unfold handleUpdate
    by_cases hlt : i < t.«variables».length
    · rw [dif_pos hlt]
      unfold VarNamesDistinct
      dsimp only
      rw [List.map_set]
      apply nodup_set _ _ _ hInv
      intro j hj hne
      rw [List.length_map] at hj
      rw [List.get_map]
      cases hpn : patch.name with
      | none =>
        intro heq
        have hget : (t.«variables».map (fun v => v.name)).get ⟨j, by simpa using hj⟩
            = (t.«variables».map (fun v => v.name)).get ⟨i, by simpa using hlt⟩ := by
          rw [List.get_map, List.get_map]
          simpa [applyVarPatch, hpn] using heq
        have := (List.nodup_iff_injective_get.mp hInv) hget
        exact hne (by simpa using congrArg Fin.val this)
      | some nm =>
        have : (applyVarPatch (t.«variables».get ⟨i, hlt⟩) patch).name = nm := by
          simp [applyVarPatch, hpn]
        rw [this]
        exact hname nm hpn j hj hne
    · rw [dif_neg hlt]
      exact hInv

/-- C4 witness: the amended theorem at a concrete tree — a fresh add, a
blocked duplicate add, a delete, and a non-colliding rename. -/
theorem C4_variable_ops_preserve_distinct_names_witness :
    VarNamesDistinct (handleAdd exTreeC4 " temp " .numeric "C" "") ∧
    handleAdd exTreeC4 "hr" .numeric "" "" = exTreeC4 ∧
    VarNamesDistinct (handleDelete exTreeC4
      { name := "hr", type := .numeric, units := none, source := none,
        description := none } true) ∧
    VarNamesDistinct (handleUpdate exTreeC4 0
      { name := some "sat", type := none, units := none, source := none,
        description := none }) := by
  have h := C4_variable_ops_preserve_distinct_names exTreeC4 (by decide)
  refine ⟨h.1 " temp " .numeric "C" "", h.2.1 "hr" .numeric "" "" (by decide), ?_, ?_⟩
  · exact h.2.2.1 _ true
  · refine h.2.2.2 0 _ ?_
    intro nm hnm j hj hne
    simp only [Option.some.injEq] at hnm
    subst hnm
    have hj2 : j < 2 := by simpa [exTreeC4] using hj
    interval_cases j
    · exact absurd rfl hne
    · exact (by decide : (exTreeC4.«variables».get ⟨1, by decide⟩).name ≠ "sat")

/-! ## Tree editor store
(src/frontend/src/components/TreeEditor/treeEditorStore.ts)

The zustand store's fields and the three history actions, embedded as a
state record and pure state transformers. -/

inductive SyncStatus : Type
  | idle | saving | saved | error
deriving DecidableEq, Repr

structure TreeEditorState : Type where
  tree : Option DecisionTree
  lastSavedTree : Option DecisionTree
  dirty : Bool
  past : List DecisionTree
  future : List DecisionTree
  syncStatus : SyncStatus
  syncError : Option String
  selectedNodeId : Option String
  version : String
deriving DecidableEq, Repr

namespace TreeEditorStore

def MAX_HISTORY : Nat := 50

/-- `updateTree` (treeEditorStore.ts, lines 71–78): replace the current
tree, mark dirty, push the previous tree (when present) onto `past` capped
at `MAX_HISTORY`, clear `future`. -/
def updateTree (s : TreeEditorState) (next : DecisionTree) : TreeEditorState :=
  { s with
    tree := some next
    dirty := true
    past := (match s.tree with
             | some t => (t :: s.past).take MAX_HISTORY
             | none => s.past)
    future := [] }

/-- `undo` (treeEditorStore.ts, lines 80–89): no-op when `past` is empty or
no tree is loaded; otherwise pop `past` into `tree` and push the current
tree onto `future`. -/
def undo (s : TreeEditorState) : TreeEditorState :=
  match s.past, s.tree with
  | p :: rest, some t =>
    { s with tree := some p, past := rest, future := t :: s.future, dirty := true }
  | _, _ => s

/-- `redo` (treeEditorStore.ts, lines 91–100): no-op when `future` is empty
or no tree is loaded; otherwise pop `future` into `tree` and push the
current tree onto `past` (uncapped). -/
def redo (s : TreeEditorState) : TreeEditorState :=
  match s.future, s.tree with
  | f :: rest, some t =>
    { s with tree := some f, future := rest, past := t :: s.past, dirty := true }
  | _, _ => s

end TreeEditorStore

/-- C10: with a tree loaded, `updateTree t` then `undo` restores the
previously current tree and places `t` at the head of the redo stack, so a
following `redo` makes `t` current again; `undo` is the identity when
`past` is empty and `redo` is the identity when `future` is empty. -/
theorem C10_undo_redo (s : TreeEditorState) (t0 t : DecisionTree)
    (h : s.tree = some t0) :
    (TreeEditorStore.undo (TreeEditorStore.updateTree s t)).tree = some t0 ∧
    (TreeEditorStore.undo (TreeEditorStore.updateTree s t)).future = [t] ∧
    (TreeEditorStore.redo (TreeEditorStore.undo (TreeEditorStore.updateTree s t))).tree
      = some t ∧
    (∀ s' : TreeEditorState, s'.past = [] → TreeEditorStore.undo s' = s') ∧
    (∀ s' : TreeEditorState, s'.future = [] → TreeEditorStore.redo s' = s') := by
  have hupd : TreeEditorStore.updateTree s t =
      { s with tree := some t, dirty := true,
               past := t0 :: s.past.take (TreeEditorStore.MAX_HISTORY - 1), future := [] } := by
    unfold TreeEditorStore.updateTree
    rw [h]
    rfl
  refine ⟨?_, ?_, ?_, ?_, ?_⟩
  · rw [hupd]
    rfl
  · rw [hupd]
    rfl
  · rw [hupd]
    rfl
  · intro s' hpast
    unfold TreeEditorStore.undo
    rw [hpast]
  · intro s' hfut
    unfold TreeEditorStore.redo
    rw [hfut]

/-- C10 witness: the undo/redo round trip on a concrete store state. -/
theorem C10_undo_redo_witness :
    (TreeEditorStore.undo (TreeEditorStore.updateTree
        { tree := some (.dmn exTreeC1), lastSavedTree := none, dirty := false,
          past := [], future := [], syncStatus := .idle, syncError := none,
          selectedNodeId := none, version := "1.0" } (.dmn exTreeC1b))).tree
      = some (.dmn exTreeC1) := by
  exact (C10_undo_redo
    { tree := some (.dmn exTreeC1), lastSavedTree := none, dirty := false,
      past := [], future := [], syncStatus := .idle, syncError := none,
      selectedNodeId := none, version := "1.0" }
    (.dmn exTreeC1) (.dmn exTreeC1b) rfl).1

/-! ## Test API request bodies (src/unnamed/part_003) -/

/-- A JSON value as produced by `JSON.stringify` of the request body. -/
inductive Json : Type
  | null
  | bool (b : Bool)
  | num (n : ℚ)
  | str (s : String)
  | arr (xs : List Json)
  | obj (fields : List (String × Json))
deriving Repr

/-- Serialization of an input value.  (`undefined` never occurs in an
`input_values` record, so every entry serializes.) -/
def jsonOfJsVal : JsVal → Json
  | .num n => .num n
  | .str s => .str s
  | .bool b => .bool b
  | .null => .null

/-- Field lookup in a serialized JSON object. -/
def jsonField (j : Json) (k : String) : Option Json :=
  match j with
  | .obj fields => objGet fields k
  | _ => none

/-- The body `JSON.stringify` serializes in `createTestCase` (part_003,
lines 58–72): `input_values` passed through, `expected_path ?? []`,
`expected_outcome ?? null`. -/
def createTestCaseBody (input_values : Obj JsVal)
    (expected_path : Option (List String)) (expected_outcome : Option String) : Json :=
  .obj [("input_values", .obj (input_values.map (fun p => (p.1, jsonOfJsVal p.2)))),
        ("expected_path", .arr ((expected_path.getD []).map Json.str)),
        ("expected_outcome", (match expected_outcome with
                              | some s => Json.str s
                              | none => Json.null))]

/-- The body `JSON.stringify` serializes in `runInlineTest` (part_003,
lines 88–102) — the same three fields with the same defaults. -/
def runInlineTestBody (input_values : Obj JsVal)
    (expected_path : Option (List String)) (expected_outcome : Option String) : Json :=
  .obj [("input_values", .obj (input_values.map (fun p => (p.1, jsonOfJsVal p.2)))),
        ("expected_path", .arr ((expected_path.getD []).map Json.str)),
        ("expected_outcome", (match expected_outcome with
                              | some s => Json.str s
                              | none => Json.null))]

/-- C6: when the caller omits `expected_path`, both `createTestCase` and
`runInlineTest` send `expected_path: []`; when the caller omits
`expected_outcome`, both send `expected_outcome: null`; `input_values` is
serialized unchanged in every case. -/
theorem C6_test_body_defaults (iv : Obj JsVal) (ep : Option (List String))
    (eo : Option String) :
    (jsonField (createTestCaseBody iv none eo) "expected_path" = some (Json.arr []) ∧
     jsonField (createTestCaseBody iv ep none) "expected_outcome" = some Json.null ∧
     jsonField (createTestCaseBody iv ep eo) "input_values"
       = some (Json.obj (iv.map (fun p => (p.1, jsonOfJsVal p.2))))) ∧
    (jsonField (runInlineTestBody iv none eo) "expected_path" = some (Json.arr []) ∧
     jsonField (runInlineTestBody iv ep none) "expected_outcome" = some Json.null ∧
     jsonField (runInlineTestBody iv ep eo) "input_values"
       = some (Json.obj (iv.map (fun p => (p.1, jsonOfJsVal p.2))))) := by
  refine ⟨⟨rfl, rfl, rfl⟩, ⟨rfl, rfl, rfl⟩⟩

/-! ## Test case form input coercion (src/unnamed/part_006, `TestCaseForm`)

`handleRun` and `handleSave` both coerce each text field with
`v === 'true' ? true : v === 'false' ? false :
 Number.isNaN(Number(v)) ? (v || null) : Number(v)`. -/

/-- Value of a digit run, most significant first. -/
def digitsToNat (ds : List Char) : Nat :=
  ds.foldl (fun n c => n * 10 + (c.toNat - '0'.toNat)) 0

/-- Exponent suffix of a JavaScript decimal literal: empty, or
`e`/`E` followed by an optional sign and a nonempty digit run consuming
the rest of the string. -/
def readExponent (cs : List Char) : Option ℤ :=
  match cs with
  | [] => some 0
  | e :: t =>
    if e = 'e' ∨ e = 'E' then
      let st : ℤ × List Char :=
        match t with
        | '+' :: r => (1, r)
        | '-' :: r => (-1, r)
        | _ => (1, t)
      let ds := st.2.takeWhile Char.isDigit
      let r := st.2.dropWhile Char.isDigit
      if ds = [] ∨ r ≠ [] then none else some (st.1 * digitsToNat ds)
    else none

/-- A trimmed, nonempty JavaScript decimal numeric literal:
`[+-]? digits [. digits]? ([eE] [+-]? digits)?` with at least one digit
around the point. -/
def readDecimal (cs : List Char) : Option ℚ :=
  let st : ℚ × List Char :=
    match cs with
    | '+' :: t => (1, t)
    | '-' :: t => (-1, t)
    | _ => (1, cs)
  let d1 := st.2.takeWhile Char.isDigit
  let r1 := st.2.dropWhile Char.isDigit
  let fr : List Char × List Char :=
    match r1 with
    | '.' :: t => (t.takeWhile Char.isDigit, t.dropWhile Char.isDigit)
    | _ => ([], r1)
  if d1 = [] ∧ fr.1 = [] then none
  else
    match readExponent fr.2 with
    | none => none
    | some e =>
      some (st.1 * ((digitsToNat d1 : ℚ) + (digitsToNat fr.1 : ℚ) / (10 : ℚ) ^ fr.1.length)
        * (10 : ℚ) ^ e)

/-- JavaScript `Number(v)` for form input strings, `none` meaning `NaN`:
whitespace is trimmed and the empty (or all-whitespace) string is `0`;
decimal literals are parsed exactly.  The hex/octal/binary and `Infinity`
forms are omitted — all such strings are nonempty, so the claims below
about the empty string and about `null` are unaffected. -/
def jsNumber (s : String) : Option ℚ :=
  let cs := ((s.data.dropWhile Char.isWhitespace).reverse.dropWhile Char.isWhitespace).reverse
  if cs = [] then some 0 else readDecimal cs

/-- The per-field coercion shared by `handleRun` (part_006, lines 27–35)
and `handleSave` (part_006, lines 54–62); `v || null` yields `null` exactly
for the empty string, the only falsy string. -/
def toPayloadValue (v : String) : JsVal :=
  if v = "true" then .bool true
  else if v = "false" then .bool false
  else
    match jsNumber v with
    | some n => .num n
    | none => if v = "" then .null else .str v

/-- `handleRun`'s payload construction (part_006, lines 27–35). -/
def handleRunPayload (inputValues : Obj String) : Obj JsVal :=
  inputValues.foldl (fun p kv => objSet p kv.1 (toPayloadValue kv.2)) []

/-- `handleSave`'s payload construction (part_006, lines 54–62; the code is
duplicated verbatim in the two handlers). -/
def handleSavePayload (inputValues : Obj String) : Obj JsVal :=
  inputValues.foldl (fun p kv => objSet p kv.1 (toPayloadValue kv.2)) []

theorem objSet_append_of_not_mem {α : Type} (o : Obj α) (k : String) (v : α)
    (h : k ∉ objKeys o) : objSet o k v = o ++ [(k, v)] := by
  induction o with
  | nil => rfl
  | cons p t ih =>
    have hpk : ¬ p.1 = k := by
      intro hpk
      exact h (by simp [objKeys, hpk])
    have ht : k ∉ objKeys t := fun hmem => h (by simp [objKeys] at hmem ⊢; exact Or.inr hmem)
    simp [objSet, hpk, ih ht]

theorem foldl_objSet_of_nodup {α β : Type} (g : String → α → β)
    (l : List (String × α)) (acc : Obj β)
    (hnd : (objKeys acc ++ objKeys l).Nodup) :
    l.foldl (fun p kv => objSet p kv.1 (g kv.1 kv.2)) acc
      = acc ++ l.map (fun kv => (kv.1, g kv.1 kv.2)) := by
  induction l generalizing acc with
  | nil => simp
  | cons kv t ih =>
    have hk : kv.1 ∉ objKeys acc := by
      intro hmem
      rcases List.nodup_append.mp hnd with ⟨_, _, hdisj⟩
      exact hdisj hmem (by simp [objKeys])
    have hnd' : (objKeys (acc ++ [(kv.1, g kv.1 kv.2)]) ++ objKeys t).Nodup := by
      have : objKeys (acc ++ [(kv.1, g kv.1 kv.2)]) ++ objKeys t
          = objKeys acc ++ (kv.1 :: objKeys t) := by
        simp [objKeys]
      rw [this]
      simpa [objKeys] using hnd
    rw [List.foldl_cons, objSet_append_of_not_mem acc kv.1 _ hk, ih _ hnd']
    simp

theorem objGet_mapPairs {α β : Type} (l : Obj α) (g : String → α → β) (k : String) :
    objGet (l.map (fun kv => (kv.1, g kv.1 kv.2))) k = (objGet l k).map (g k) := by
  induction l with
  | nil => rfl
  | cons p t ih =>
    by_cases hpk : p.1 = k
    · subst hpk
      simp [objGet]
    · simp [objGet, hpk, ih]

theorem handleRunPayload_get (iv : Obj String) (h : (objKeys iv).Nodup) (k : String) :
    objGet (handleRunPayload iv) k = (objGet iv k).map (fun v => toPayloadValue v) := by
  unfold handleRunPayload
  rw [foldl_objSet_of_nodup (fun _ v => toPayloadValue v) iv [] (by simpa [objKeys] using h)]
  simpa using objGet_mapPairs iv (fun _ v => toPayloadValue v) k

theorem handleSavePayload_get (iv : Obj String) (h : (objKeys iv).Nodup) (k : String) :
    objGet (handleSavePayload iv) k = (objGet iv k).map (fun v => toPayloadValue v) := by
  unfold handleSavePayload
  rw [foldl_objSet_of_nodup (fun _ v => toPayloadValue v) iv [] (by simpa [objKeys] using h)]
  simpa using objGet_mapPairs iv (fun _ v => toPayloadValue v) k

theorem toPayloadValue_empty : toPayloadValue "" = JsVal.num 0 := by decide

theorem toPayloadValue_null_iff (v : String) :
    toPayloadValue v = JsVal.null → jsNumber v = none ∧ v = "" := by
  intro h
  unfold toPayloadValue at h
  by_cases h1 : v = "true"
  · simp [h1] at h
  · by_cases h2 : v = "false"
    · simp [h1, h2] at h
    · simp only [h1, h2, if_false] at h
      cases hn : jsNumber v with
      | some n => simp [hn] at h
      | none =>
        rw [hn] at h
        by_cases h3 : v = ""
        · exact ⟨rfl, h3⟩
        · simp [h3] at h

/-- C9: under the distinct-keys invariant of the form state, every variable
stored as the empty string is sent by both handlers as the number `0`
(`Number('') === 0`, not `NaN`), never as `null` and never omitted; and a
key could be sent as `null` only for a stored text that is both
non-numeric (`NaN`) and falsy. -/
theorem C9_empty_string_sends_zero (iv : Obj String) (h : (objKeys iv).Nodup) :
    (∀ k, objGet iv k = some "" →
        objGet (handleRunPayload iv) k = some (JsVal.num 0) ∧
        objGet (handleSavePayload iv) k = some (JsVal.num 0)) ∧
    (∀ k v, objGet iv k = some v →
        (objGet (handleRunPayload iv) k = some JsVal.null ∨
         objGet (handleSavePayload iv) k = some JsVal.null) →
        jsNumber v = none ∧ v = "") := by
  refine ⟨?_, ?_⟩
  · intro k hk
    rw [handleRunPayload_get iv h k, handleSavePayload_get iv h k, hk]
    simp [toPayloadValue_empty]
  · intro k v hk hnull
    rw [handleRunPayload_get iv h k, handleSavePayload_get iv h k, hk] at hnull
    have : toPayloadValue v = JsVal.null := by
      rcases hnull with hnull | hnull <;> simpa using hnull
    exact toPayloadValue_null_iff v this

/-- C9 witness: a concrete form state with one empty field. -/
theorem C9_empty_string_sends_zero_witness :
    objGet (handleRunPayload [("spo2", "")]) "spo2" = some (JsVal.num 0) ∧
    objGet (handleSavePayload [("spo2", "")]) "spo2" = some (JsVal.num 0) := by
  exact (C9_empty_string_sends_zero [("spo2", "")] (by decide)).1 "spo2" (by decide)

/-! ## Coverage visualization
(src/frontend/src/components/Testing/CoverageVisualization.tsx) -/

/-- `TestResultItem` (src/unnamed/part_003); the `execution_trace` entries
are opaque to the coverage computation and omitted. -/
structure TestResultItem : Type where
  test_case_id : String
  passed : Bool
  actual_path : List String
  expected_path : List String
  actual_outcome : Option String
  expected_outcome : Option String
  execution_time_ms : ℚ
  error_message : Option String
deriving DecidableEq, Repr

/-- `TestSuiteResult` (src/unnamed/part_003). -/
structure TestSuiteResult : Type where
  tree_id : String
  total : Nat
  passed : Nat
  failed : Nat
  breaking_changes : List String
  results : List TestResultItem
  run_at : Option String
deriving DecidableEq, Repr

/-- JavaScript `Math.round`: round half toward positive infinity.  ECMA
defines it on the exact mathematical value of the double argument (no
float addition of 0.5 is performed), so it applies to the exact rational
value of the modelled double. -/
def jsRound (q : ℚ) : ℤ := ⌊q + 1 / 2⌋

/-! JavaScript numbers are IEEE-754 binary64 values.  The component below
divides and multiplies doubles, and on reachable inputs the results are
**not** always the exact rationals: each operation rounds its exact result
to 53 significant bits (round to nearest, ties to even).  The model keeps
a double as the exact rational it denotes and rounds after every
operation.  Overflow and subnormals are not modelled: the component's
operands are node counts (integers below 2^53, hence exact doubles) and
quotients in `[0, 1]` scaled by 100, which stay far inside the normal
range for any physically possible tree. -/

/-- Round a rational to the nearest integer, ties to even — the IEEE-754
default rounding mode. -/
def roundQToIntEven (q : ℚ) : ℤ :=
  if q - ⌊q⌋ < 1 / 2 then ⌊q⌋
  else if 1 / 2 < q - ⌊q⌋ then ⌊q⌋ + 1
  else if ⌊q⌋ % 2 = 0 then ⌊q⌋ else ⌊q⌋ + 1

/-- Round a positive rational to the nearest binary64 value: scale into
`[2^52, 2^53)`, round the 53-bit significand to nearest/ties-to-even, and
scale back. -/
def roundToDoubleAbs (q : ℚ) : ℚ :=
  (roundQToIntEven (q / 2 ^ (Int.log 2 q - 52)) : ℚ) * 2 ^ (Int.log 2 q - 52)

/-- Round any rational to the nearest binary64 value (normal range). -/
def roundToDouble (q : ℚ) : ℚ :=
  if q = 0 then 0
  else if q < 0 then -roundToDoubleAbs (-q)
  else roundToDoubleAbs q

/-- JavaScript `a / b` on doubles: the exact quotient, correctly rounded. -/
def jsDiv (a b : ℚ) : ℚ := roundToDouble (a / b)

/-- JavaScript `a * b` on doubles: the exact product, correctly rounded. -/
def jsMul (a b : ℚ) : ℚ := roundToDouble (a * b)

theorem int_log2_eq_of {q : ℚ} {z : ℤ} (hq : 0 < q)
    (hlo : (2 : ℚ) ^ z ≤ q) (hhi : q < (2 : ℚ) ^ (z + 1)) : Int.log 2 q = z := by
  have h1 : z ≤ Int.log 2 q := (Int.zpow_le_iff_le_log (by norm_num) hq).mp hlo
  have h2 : Int.log 2 q < z + 1 := (Int.lt_zpow_iff_log_lt (by norm_num) hq).mp hhi
  omega

/-- Evaluation rule for `roundToDouble` at a concrete positive rational,
given its binade and the rounded scaled significand. -/
theorem roundToDouble_eq_of {q : ℚ} {z m : ℤ} (hq : 0 < q)
    (hlo : (2 : ℚ) ^ z ≤ q) (hhi : q < (2 : ℚ) ^ (z + 1))
    (hm : roundQToIntEven (q / 2 ^ (z - 52)) = m) :
    roundToDouble q = (m : ℚ) * 2 ^ (z - 52) := by
  unfold roundToDouble roundToDoubleAbs
  rw [if_neg hq.ne', if_neg (not_lt.mpr hq.le), int_log2_eq_of hq hlo hhi, hm]

/-- `new Set(nodeList.map(n => n.id))` where
`nodeList = Object.values(getTreeNodes(tree))` (`getTreeNodes` never
returns an array, so the `Array.isArray` branch is dead).  `List.dedup`
keeps one copy per distinct id; the set's iteration order does not reach
any number the component computes, only its cardinality does. -/
def nodeIdsOf (tree : DecisionTree) : List String :=
  ((objValues (getTreeNodes tree)).map (fun n => n.id)).dedup

/-- One step of the hit-counting loop
(`if (nodeIds.has(nid)) hitCount[nid] = (hitCount[nid] ?? 0) + 1`). -/
def bumpOne (ids : List String) (hc : Obj Nat) (nid : String) : Obj Nat :=
  if ids.contains nid then objSet hc nid ((objGet hc nid).getD 0 + 1) else hc

def bumpPath (ids : List String) (hc : Obj Nat) (path : List String) : Obj Nat :=
  path.foldl (bumpOne ids) hc

def bumpAll (ids : List String) (hc : Obj Nat) (results : List TestResultItem) : Obj Nat :=
  results.foldl (fun h r => bumpPath ids h r.actual_path) hc

/-- `nodeIds.forEach((id) => (hitCount[id] = 0))`. -/
def hitCountInit (ids : List String) : Obj Nat :=
  ids.map (fun i => (i, 0))

/-- `const covered = Object.keys(hitCount).filter((id) => hitCount[id] > 0).length`
(CoverageVisualization.tsx, line 27). -/
def coverageCovered (tree : DecisionTree) (lastResult : Option TestSuiteResult) : Nat :=
  let ids := nodeIdsOf tree
  let hc := match lastResult with
            | some res => bumpAll ids (hitCountInit ids) res.results
            | none => hitCountInit ids
  (objKeys hc).countP (fun id => decide (0 < (objGet hc id).getD 0))

/-- `const total = nodeIds.size` (CoverageVisualization.tsx, line 28). -/
def coverageTotal (tree : DecisionTree) : Nat :=
  (nodeIdsOf tree).length

/-- The percentage displayed by `CoverageVisualization`
(CoverageVisualization.tsx, line 29):
`total > 0 ? Math.round((covered / total) * 100) : 0`, with the division
and the multiplication performed on binary64 doubles (the counts are exact
doubles; each operation rounds its exact result). -/
def coveragePct (tree : DecisionTree) (lastResult : Option TestSuiteResult) : ℤ :=
  if 0 < coverageTotal tree
  then jsRound (jsMul (jsDiv (coverageCovered tree lastResult : ℚ) (coverageTotal tree : ℚ)) 100)
  else 0

/-- The coverage percentage as the amended claim words it:
`Math.round` of the binary64 computation `(covered ÷ total) × 100` — each
operation correctly rounded — over the distinct node ids of the tree,
`covered` counting the ids hit by at least one result's `actual_path`,
and `0` for a tree without nodes. -/
def coveragePctSpec (tree : DecisionTree) (results : List TestResultItem) : ℤ :=
  let ids := nodeIdsOf tree
  let covered := ids.countP (fun id => results.any (fun r => r.actual_path.contains id))
  if ids.length = 0 then 0
  else jsRound (jsMul (jsDiv (covered : ℚ) (ids.length : ℚ)) 100)

theorem objKeys_hitCountInit (ids : List String) : objKeys (hitCountInit ids) = ids := by
  induction ids with
  | nil => rfl
  | cons a t ih => simpa [objKeys, hitCountInit] using ih

theorem objGet_hitCountInit (ids : List String) (id : String) :
    objGet (hitCountInit ids) id = if id ∈ ids then some 0 else none := by
  induction ids with
  | nil => simp [hitCountInit, objGet]
  | cons a t ih =>
    by_cases ha : a = id
    · simp [hitCountInit, objGet, ha]
    · have hne : ¬ id = a := fun hh => ha hh.symm
      simpa [hitCountInit, objGet, ha, hne] using ih

theorem objKeys_bumpOne (ids : List String) (hc : Obj Nat) (nid : String)
    (hkeys : objKeys hc = ids) : objKeys (bumpOne ids hc nid) = ids := by
  unfold bumpOne
  by_cases hmem : ids.contains nid
  · rw [if_pos hmem]
    rw [objKeys_objSet_of_mem]
    · exact hkeys
    · rw [hkeys]
      exact (List.elem_iff).mp hmem
  · rw [if_neg hmem]
    exact hkeys

theorem objKeys_bumpPath (ids : List String) (hc : Obj Nat) (path : List String)
    (hkeys : objKeys hc = ids) : objKeys (bumpPath ids hc path) = ids := by
  induction path generalizing hc with
  | nil => exact hkeys
  | cons nid t ih => exact ih _ (objKeys_bumpOne ids hc nid hkeys)

theorem objKeys_bumpAll (ids : List String) (hc : Obj Nat) (results : List TestResultItem)
    (hkeys : objKeys hc = ids) : objKeys (bumpAll ids hc results) = ids := by
  induction results generalizing hc with
  | nil => exact hkeys
  | cons r t ih => exact ih _ (objKeys_bumpPath ids hc r.actual_path hkeys)

/-- A key has a positive count. -/
def posCount (hc : Obj Nat) (id : String) : Prop := 0 < (objGet hc id).getD 0

theorem posCount_bumpOne (ids : List String) (hc : Obj Nat) (nid id : String) :
    posCount (bumpOne ids hc nid) id ↔ posCount hc id ∨ (id ∈ ids ∧ id = nid) := by
  unfold bumpOne posCount
  by_cases hmem : ids.contains nid
  · rw [if_pos hmem, objGet_objSet]
    by_cases hid : id = nid
    · subst hid
      simp only [if_pos rfl, Option.getD_some]
      constructor
      · intro _
        exact Or.inr ⟨(List.elem_iff).mp hmem, by trivial⟩
      · intro _
        exact Nat.succ_pos _
    · simp [hid]
  · rw [if_neg hmem]
    constructor
    · exact Or.inl
    · rintro (h | ⟨hmem', rfl⟩)
      · exact h
      · exact absurd ((List.elem_iff).mpr hmem') hmem

theorem posCount_bumpPath (ids : List String) (hc : Obj Nat) (path : List String)
    (id : String) :
    posCount (bumpPath ids hc path) id ↔ posCount hc id ∨ (id ∈ ids ∧ id ∈ path) := by
  induction path generalizing hc with
  | nil => simp [bumpPath]
  | cons nid t ih =>
    show posCount (bumpPath ids (bumpOne ids hc nid) t) id ↔ _
    rw [ih, posCount_bumpOne]
    simp only [List.mem_cons]
    tauto

theorem posCount_bumpAll (ids : List String) (hc : Obj Nat)
    (results : List TestResultItem) (id : String) :
    posCount (bumpAll ids hc results) id
      ↔ posCount hc id ∨ (id ∈ ids ∧ ∃ r ∈ results, id ∈ r.actual_path) := by
  induction results generalizing hc with
  | nil => simp [bumpAll]
  | cons r t ih =>
    show posCount (bumpAll ids (bumpPath ids hc r.actual_path) t) id ↔ _
    rw [ih, posCount_bumpPath]
    simp only [List.mem_cons]
    constructor
    · rintro ((h | ⟨h1, h2⟩) | ⟨h1, r', hr', h2⟩)
      · exact Or.inl h
      · exact Or.inr ⟨h1, r, Or.inl rfl, h2⟩
      · exact Or.inr ⟨h1, r', Or.inr hr', h2⟩
    · rintro (h | ⟨h1, r', hr' | hr', h2⟩)
      · exact Or.inl (Or.inl h)
      · exact Or.inl (Or.inr ⟨h1, hr' ▸ h2⟩)
      · exact Or.inr ⟨h1, r', hr', h2⟩

theorem posCount_hitCountInit (ids : List String) (id : String) :
    ¬ posCount (hitCountInit ids) id := by
  unfold posCount
  rw [objGet_hitCountInit]
  by_cases hmem : id ∈ ids <;> simp [hmem]

theorem coverageCovered_eq (tree : DecisionTree) (sr : TestSuiteResult) :
    coverageCovered tree (some sr)
      = (nodeIdsOf tree).countP
          (fun id => sr.results.any (fun r => r.actual_path.contains id)) := by
  unfold coverageCovered
  dsimp only
  have hkeys : objKeys (bumpAll (nodeIdsOf tree) (hitCountInit (nodeIdsOf tree)) sr.results)
      = nodeIdsOf tree :=
    objKeys_bumpAll _ _ _ (objKeys_hitCountInit _)
  rw [hkeys]
  apply List.countP_congr
  intro id hid
  simp only [decide_eq_true_eq]
  rw [show (0 < (objGet (bumpAll (nodeIdsOf tree) (hitCountInit (nodeIdsOf tree))
      sr.results) id).getD 0) = posCount (bumpAll (nodeIdsOf tree)
      (hitCountInit (nodeIdsOf tree)) sr.results) id from rfl]
  rw [posCount_bumpAll]
  constructor
  · rintro (h | ⟨_, r, hr, hpath⟩)
    · exact absurd h (posCount_hitCountInit _ _)
    · rw [List.any_eq_true]
      exact ⟨r, hr, (List.elem_iff).mpr hpath⟩
  · intro h
    rw [List.any_eq_true] at h
    rcases h with ⟨r, hr, hpath⟩
    exact Or.inr ⟨hid, r, hr, (List.elem_iff).mp hpath⟩

/-- Distinct node ids for the C7 counterexample tree: `n`, `nx`, `nxx`, … -/
def c7Id (i : Nat) : String :=
  ⟨'n' :: List.replicate i 'x'⟩

def c7Node (i : Nat) : DecisionNode :=
  { id := c7Id i, type := .action, label := "step", description := none,
    condition := none, action := none, score_expression := none, children := none }

/-- A 40-node tree (structure irrelevant to the coverage component, which
only reads the id set). -/
def exTreeC7 : DecisionTreeDmn :=
  { id := "t7", version := "1.0", name := "cov", description := none,
    domain := "triage", root_node_id := c7Id 0,
    nodes := (List.range 40).map (fun i => (c7Id i, c7Node i)),
    «variables» := [] }

/-- The one test suite of the C7 counterexample: a single result whose
`actual_path` hits the first 23 of the tree's 40 nodes. -/
def exSuiteC7 : TestSuiteResult :=
  { tree_id := "t7", total := 1, passed := 1, failed := 0, breaking_changes := [],
    results := [{ test_case_id := "c1", passed := true,
                  actual_path := (List.range 23).map (fun i => c7Id i),
                  expected_path := [], actual_outcome := none,
                  expected_outcome := none, execution_time_ms := 1,
                  error_message := none }],
    run_at := none }

theorem exC7_div :
    jsDiv (23 : ℚ) 40 = (5179139571476070 : ℚ) * 2 ^ (-53 : ℤ) := by
  unfold jsDiv
  have h : roundToDouble ((23 : ℚ) / 40)
      = ((5179139571476070 : ℤ) : ℚ) * 2 ^ ((-1 : ℤ) - 52) := by
    apply roundToDouble_eq_of (z := -1) (m := 5179139571476070)
    · norm_num
    · norm_num
    · norm_num
    · have hval : ((23 : ℚ) / 40) / 2 ^ ((-1 : ℤ) - 52)
          = (207165582859042816 : ℚ) / 40 := by
        norm_num
      have hfl : ⌊(207165582859042816 : ℚ) / 40⌋ = 5179139571476070 := by
        rw [Int.floor_eq_iff]
        norm_num
      unfold roundQToIntEven
      rw [hval, hfl]
      rw [if_pos (by norm_num)]
  rw [h]
  norm_num

theorem exC7_mul :
    jsMul ((5179139571476070 : ℚ) * 2 ^ (-53 : ℤ)) 100
      = (8092405580431359 : ℚ) * 2 ^ (-47 : ℤ) := by
  unfold jsMul
  have harg : (5179139571476070 : ℚ) * 2 ^ (-53 : ℤ) * 100
      = (517913957147607000 : ℚ) / 9007199254740992 := by
    rw [zpow_neg]
    norm_num
  rw [harg]
  have h : roundToDouble ((517913957147607000 : ℚ) / 9007199254740992)
      = ((8092405580431359 : ℤ) : ℚ) * 2 ^ ((5 : ℤ) - 52) := by
    apply roundToDouble_eq_of (z := 5) (m := 8092405580431359)
    · norm_num
    · norm_num
    · norm_num
    · have hval : ((517913957147607000 : ℚ) / 9007199254740992) / 2 ^ ((5 : ℤ) - 52)
          = (517913957147607000 : ℚ) / 64 := by
        norm_num
      have hfl : ⌊(517913957147607000 : ℚ) / 64⌋ = 8092405580431359 := by
        rw [Int.floor_eq_iff]
        norm_num
      unfold roundQToIntEven
      rw [hval, hfl]
      rw [if_pos (by norm_num)]
  rw [h]
  norm_num

theorem exC7_round : jsRound ((8092405580431359 : ℚ) * 2 ^ (-47 : ℤ)) = 57 := by
  unfold jsRound
  rw [Int.floor_eq_iff]
  rw [zpow_neg]
  norm_num

/-- C7 counterexample: the claim as stated is false of the program.  On a
40-node tree with 23 covered nodes the component computes
`Math.round((23 / 40) * 100)` in binary64: `23/40` rounds to
`5179139571476070 × 2⁻⁵³`, the product with 100 rounds to
`8092405580431359 × 2⁻⁴⁷ = 57.49999999999999289…`, and `Math.round` gives
57 — while the claim's exact formula `round(100 × 23 ÷ 40) = round(57.5)`
gives 58. -/
theorem C7_counterexample :
    coverageCovered (.dmn exTreeC7) (some exSuiteC7) = 23 ∧
    coverageTotal (.dmn exTreeC7) = 40 ∧
    coveragePct (.dmn exTreeC7) (some exSuiteC7) = 57 ∧
    jsRound (100 * (23 : ℚ) / 40) = 58 := by
  have hcv : coverageCovered (.dmn exTreeC7) (some exSuiteC7) = 23 := by decide
  have htt : coverageTotal (.dmn exTreeC7) = 40 := by decide
  refine ⟨hcv, htt, ?_, ?_⟩
  · unfold coveragePct
    rw [hcv, htt, if_pos (by norm_num)]
    rw [show ((23 : ℕ) : ℚ) = (23 : ℚ) from by norm_num,
        show ((40 : ℕ) : ℚ) = (40 : ℚ) from by norm_num]
    rw [exC7_div, exC7_mul, exC7_round]
  · unfold jsRound
    rw [Int.floor_eq_iff]
    norm_num

/-- C7 amended: the displayed coverage percentage equals `Math.round` of
the binary64 computation `(covered ÷ total) × 100` (division and
multiplication each correctly rounded to nearest, ties to even), where
`total` is the number of distinct node ids of the tree, `covered` is the
number of those ids occurring in the `actual_path` of at least one result
(foreign path ids are ignored), and the percentage is `0` for a tree
without nodes.  The original exact formula `round(100 × covered ÷ total)`
differs from the program, e.g. at `covered = 23`, `total = 40`. -/
theorem C7_coverage_percentage (tree : DecisionTree) (sr : TestSuiteResult) :
    coveragePct tree (some sr) = coveragePctSpec tree sr.results := by
  unfold coveragePct coveragePctSpec coverageTotal
  dsimp only
  rw [coverageCovered_eq]
  rcases Nat.eq_zero_or_pos (nodeIdsOf tree).length with hlen | hlen
  · rw [hlen]
    simp
  · rw [if_pos hlen, if_neg (Nat.pos_iff_ne_zero.mp hlen)]

/-! ## The Evaluator (spec §4.3)

The repository snapshot contains the frontend only: the backend Evaluator
is known through its API callers (src/unnamed/part_003) and the
specification.  The definitions below are therefore modelled from the
specification text, §4.3 and §3, against the node shape of
src/frontend/src/types/decisionTree.ts. -/

/-- Modelled from the spec: a token of the score-expression grammar
(§4.2/§4.3 — "a small arithmetic/boolean grammar over variable references
and literals — supports `+ - * / and or not` and comparisons"). -/
inductive Tok : Type
  | num (n : ℚ)
  | ident (s : String)
  | sym (s : String)
deriving DecidableEq, Repr

/-- Modelled from the spec: a decimal literal inside a score expression. -/
def lexNum (cs : List Char) : ℚ × List Char :=
  let d1 := cs.takeWhile Char.isDigit
  let r1 := cs.dropWhile Char.isDigit
  match r1 with
  | '.' :: t =>
    let d2 := t.takeWhile Char.isDigit
    let r2 := t.dropWhile Char.isDigit
    ((digitsToNat d1 : ℚ) + (digitsToNat d2 : ℚ) / (10 : ℚ) ^ d2.length, r2)
  | _ => ((digitsToNat d1 : ℚ), r1)

def isIdentStart (c : Char) : Bool := c.isAlpha || c = '_'

def isIdentChar (c : Char) : Bool := c.isAlphanum || c = '_'

/-- Modelled from the spec: tokenizer of the score-expression grammar.
`none` is a lexical error; the fuel is spent one unit per token or
whitespace character, so any fuel beyond the character count is enough. -/
def lexExpr : Nat → List Char → Option (List Tok)
  | 0, _ => none
  | _ + 1, [] => some []
  | fuel + 1, c :: cs =>
    if c.isWhitespace then lexExpr fuel cs
    else if c.isDigit then
      let r := lexNum (c :: cs)
      (lexExpr fuel r.2).map (fun ts => .num r.1 :: ts)
    else if isIdentStart c then
      let nm : String := ⟨(c :: cs).takeWhile isIdentChar⟩
      (lexExpr fuel ((c :: cs).dropWhile isIdentChar)).map (fun ts => .ident nm :: ts)
    else
      match c, cs with
      | '<', '=' :: r => (lexExpr fuel r).map (fun ts => .sym "<=" :: ts)
      | '>', '=' :: r => (lexExpr fuel r).map (fun ts => .sym ">=" :: ts)
      | '=', '=' :: r => (lexExpr fuel r).map (fun ts => .sym "==" :: ts)
      | '!', '=' :: r => (lexExpr fuel r).map (fun ts => .sym "!=" :: ts)
      | '<', r => (lexExpr fuel r).map (fun ts => .sym "<" :: ts)
      | '>', r => (lexExpr fuel r).map (fun ts => .sym ">" :: ts)
      | '+', r => (lexExpr fuel r).map (fun ts => .sym "+" :: ts)
      | '-', r => (lexExpr fuel r).map (fun ts => .sym "-" :: ts)
      | '*', r => (lexExpr fuel r).map (fun ts => .sym "*" :: ts)
      | '/', r => (lexExpr fuel r).map (fun ts => .sym "/" :: ts)
      | '(', r => (lexExpr fuel r).map (fun ts => .sym "(" :: ts)
      | ')', r => (lexExpr fuel r).map (fun ts => .sym ")" :: ts)
      | _, _ => none

def truthy (q : ℚ) : Bool := decide (q ≠ 0)

def boolToQ (b : Bool) : ℚ := if b then 1 else 0

/-- Modelled from the spec: the numeric value of an input for expression
evaluation — numbers as themselves, booleans as 1/0, anything else (or a
missing/null variable) is an evaluation error. -/
def numValue (input : Obj JsVal) (name : String) : Option ℚ :=
  match objGet input name with
  | some (.num n) => some n
  | some (.bool b) => some (boolToQ b)
  | _ => none

mutual

/-- Modelled from the spec: `or`-level of the expression grammar. -/
def evalOrL (fuel : Nat) (ts : List Tok) (env : Obj JsVal) : Option (ℚ × List Tok) :=
  match fuel with
  | 0 => none
  | f + 1 =>
    match evalAndL f ts env with
    | none => none
    | some (v, rest) => evalOrTail f v rest env

def evalOrTail (fuel : Nat) (acc : ℚ) (ts : List Tok) (env : Obj JsVal) :
    Option (ℚ × List Tok) :=
  match fuel with
  | 0 => none
  | f + 1 =>
    match ts with
    | .ident "or" :: r =>
      match evalAndL f r env with
      | none => none
      | some (v, rest) => evalOrTail f (boolToQ (truthy acc || truthy v)) rest env
    | _ => some (acc, ts)

/-- Modelled from the spec: `and`-level. -/
def evalAndL (fuel : Nat) (ts : List Tok) (env : Obj JsVal) : Option (ℚ × List Tok) :=
  match fuel with
  | 0 => none
  | f + 1 =>
    match evalNotL f ts env with
    | none => none
    | some (v, rest) => evalAndTail f v rest env

def evalAndTail (fuel : Nat) (acc : ℚ) (ts : List Tok) (env : Obj JsVal) :
    Option (ℚ × List Tok) :=
  match fuel with
  | 0 => none
  | f + 1 =>
    match ts with
    | .ident "and" :: r =>
      match evalNotL f r env with
      | none => none
      | some (v, rest) => evalAndTail f (boolToQ (truthy acc && truthy v)) rest env
    | _ => some (acc, ts)

/-- Modelled from the spec: `not`-level. -/
def evalNotL (fuel : Nat) (ts : List Tok) (env : Obj JsVal) : Option (ℚ × List Tok) :=
  match fuel with
  | 0 => none
  | f + 1 =>
    match ts with
    | .ident "not" :: r =>
      match evalNotL f r env with
      | none => none
      | some (v, rest) => some (boolToQ (!truthy v), rest)
    | _ => evalCmpL f ts env

/-- Modelled from the spec: one optional comparison between sums. -/
def evalCmpL (fuel : Nat) (ts : List Tok) (env : Obj JsVal) : Option (ℚ × List Tok) :=
  match fuel with
  | 0 => none
  | f + 1 =>
    match evalAddL f ts env with
    | none => none
    | some (a, rest) =>
      match rest with
      | .sym "<" :: r =>
        (evalAddL f r env).map (fun br => (boolToQ (decide (a < br.1)), br.2))
      | .sym ">" :: r =>
        (evalAddL f r env).map (fun br => (boolToQ (decide (br.1 < a)), br.2))
      | .sym "<=" :: r =>
        (evalAddL f r env).map (fun br => (boolToQ (decide (a ≤ br.1)), br.2))
      | .sym ">=" :: r =>
        (evalAddL f r env).map (fun br => (boolToQ (decide (br.1 ≤ a)), br.2))
      | .sym "==" :: r =>
        (evalAddL f r env).map (fun br => (boolToQ (decide (a = br.1)), br.2))
      | .sym "!=" :: r =>
        (evalAddL f r env).map (fun br => (boolToQ (decide (a ≠ br.1)), br.2))
      | _ => some (a, rest)

/-- Modelled from the spec: sums and differences, left associative. -/
def evalAddL (fuel : Nat) (ts : List Tok) (env : Obj JsVal) : Option (ℚ × List Tok) :=
  match fuel with
  | 0 => none
  | f + 1 =>
    match evalMulL f ts env with
    | none => none
    | some (v, rest) => evalAddTail f v rest env

def evalAddTail (fuel : Nat) (acc : ℚ) (ts : List Tok) (env : Obj JsVal) :
    Option (ℚ × List Tok) :=
  match fuel with
  | 0 => none
  | f + 1 =>
    match ts with
    | .sym "+" :: r =>
      match evalMulL f r env with
      | none => none
      | some (v, rest) => evalAddTail f (acc + v) rest env
    | .sym "-" :: r =>
      match evalMulL f r env with
      | none => none
      | some (v, rest) => evalAddTail f (acc - v) rest env
    | _ => some (acc, ts)

/-- Modelled from the spec: products and quotients, left associative;
division by zero is an evaluation error. -/
def evalMulL (fuel : Nat) (ts : List Tok) (env : Obj JsVal) : Option (ℚ × List Tok) :=
  match fuel with
  | 0 => none
  | f + 1 =>
    match evalUnaryL f ts env with
    | none => none
    | some (v, rest) => evalMulTail f v rest env

def evalMulTail (fuel : Nat) (acc : ℚ) (ts : List Tok) (env : Obj JsVal) :
    Option (ℚ × List Tok) :=
  match fuel with
  | 0 => none
  | f + 1 =>
    match ts with
    | .sym "*" :: r =>
      match evalUnaryL f r env with
      | none => none
      | some (v, rest) => evalMulTail f (acc * v) rest env
    | .sym "/" :: r =>
      match evalUnaryL f r env with
      | none => none
      | some (v, rest) => if v = 0 then none else evalMulTail f (acc / v) rest env
    | _ => some (acc, ts)

/-- Modelled from the spec: unary minus and atoms. -/
def evalUnaryL (fuel : Nat) (ts : List Tok) (env : Obj JsVal) : Option (ℚ × List Tok) :=
  match fuel with
  | 0 => none
  | f + 1 =>
    match ts with
    | .sym "-" :: r =>
      match evalUnaryL f r env with
      | none => none
      | some (v, rest) => some (-v, rest)
    | .num n :: r => some (n, r)
    | .ident x :: r =>
      match numValue env x with
      | some v => some (v, r)
      | none => none
    | .sym "(" :: r =>
      match evalOrL f r env with
      | some (v, .sym ")" :: rest) => some (v, rest)
      | _ => none
    | _ => none

end

/-- Modelled from the spec: score-expression evaluation over the input
map; `none` is an evaluation error (lexical error, syntax error, unknown
or non-numeric identifier, division by zero, trailing tokens). -/
def evalScoreExpr (e : String) (env : Obj JsVal) : Option ℚ :=
  match lexExpr (e.data.length + 1) e.data with
  | none => none
  | some ts =>
    match evalOrL (8 * ts.length + 16) ts env with
    | some (v, []) => some v
    | _ => none

/-- Modelled from the spec (§4.3): the branch decision recorded in a trace
entry — a condition's boolean result (`none` meaning the `unknown` marker
for a missing/null variable) or a score's computed value. -/
inductive BranchEval : Type
  | condValue (result : Option Bool)
  | scoreValue (value : Option ℚ)
deriving DecidableEq, Repr

/-- Modelled from the spec (§3): one `ExecutionTrace` entry. -/
structure TraceEntry : Type where
  node_id : String
  node_label : String
  node_type : NodeType
  condition_evaluated : Option BranchEval
  next_node_id : Option String
deriving DecidableEq, Repr

/-- Modelled from the spec (§7): execution errors.  `missing_node` is the
defensive guard for a dangling child, unreachable on validated trees. -/
inductive ExecError : Type
  | cycle_at_runtime (node_id : String)
  | no_false_branch (node_id : String)
  | ambiguous_branch (node_id : String)
  | missing_node (node_id : String)
deriving DecidableEq, Repr

/-- Modelled from the spec (§4.3): the Evaluator's result quadruple. -/
structure EvalResult : Type where
  path : List String
  outcome : Option String
  trace : List TraceEntry
  error : Option ExecError
deriving DecidableEq, Repr

/-- Modelled from the spec (§3/§4.3): `input[variable] <operator>
threshold`.  Equality is structural on the primitive value, the order
comparisons apply to numbers, `contains` is substring on strings; any
type-mismatched comparison is false (such trees are rejected by the
Condition Validator). -/
def compareVals (op : String) (v : JsVal) (threshold : Option JsVal) : Bool :=
  match op, v, threshold with
  | "==", x, some y => decide (x = y)
  | "!=", x, some y => decide (x ≠ y)
  | "<", .num a, some (.num b) => decide (a < b)
  | ">", .num a, some (.num b) => decide (b < a)
  | "<=", .num a, some (.num b) => decide (a ≤ b)
  | ">=", .num a, some (.num b) => decide (b ≤ a)
  | "contains", .str a, some (.str b) => strContains a b
  | _, _, _ => false

/-- Modelled from the spec (§4.3): a condition's outcome; `none` is the
`unknown` marker — the variable is absent or null in `input_values` — and
evaluates as false. -/
def evalCondition (c : ConditionSpec) (input : Obj JsVal) : Option Bool :=
  match objGet input c.«variable» with
  | none => none
  | some .null => none
  | some v => some (compareVals c.operator v c.threshold)

/-- Modelled from the spec (§4.3): the Evaluator's walk from one node.
Terminal action/outcome nodes record the recommendation (or the label);
condition nodes branch positionally over `[true_branch, false_branch]`
with a missing second child yielding `no_false_branch`; score nodes carry
no threshold in this tree shape, so the first child is taken
unconditionally and the computed value is recorded; question/root nodes
pass through a single child and fail with `ambiguous_branch` otherwise.
The visited guard converts any revisit into `cycle_at_runtime`; the fuel
`|nodes| + 1` can only run out after a revisit, so the zero-fuel branch
also reports `cycle_at_runtime`. -/
def evalFrom (t : DecisionTreeDmn) (input : Obj JsVal) :
    Nat → List String → String → EvalResult
  | 0, _, nodeId =>
    { path := [], outcome := none, trace := [], error := some (.cycle_at_runtime nodeId) }
  | fuel + 1, visited, nodeId =>
    if visited.contains nodeId then
      { path := [], outcome := none, trace := [], error := some (.cycle_at_runtime nodeId) }
    else
      match objGet t.nodes nodeId with
      | none =>
        { path := [], outcome := none, trace := [], error := some (.missing_node nodeId) }
      | some node =>
        match node.type with
        | .action | .outcome =>
          { path := [nodeId]
            outcome := some (match node.action with
                             | some a => a.recommendation
                             | none => node.label)
            trace := [{ node_id := nodeId, node_label := node.label,
                        node_type := node.type, condition_evaluated := none,
                        next_node_id := none }]
            error := none }
        | .condition =>
          let r := match node.condition with
                   | some c => evalCondition c input
                   | none => none
          let kids := node.children.getD []
          if r.getD false then
            match kids[0]? with
            | some next =>
              let rest := evalFrom t input fuel (nodeId :: visited) next
              { path := nodeId :: rest.path
                outcome := rest.outcome
                trace := { node_id := nodeId, node_label := node.label,
                           node_type := node.type,
                           condition_evaluated := some (.condValue r),
                           next_node_id := some next } :: rest.trace
                error := rest.error }
            | none =>
              { path := [nodeId], outcome := none
                trace := [{ node_id := nodeId, node_label := node.label,
                            node_type := node.type,
                            condition_evaluated := some (.condValue r),
                            next_node_id := none }]
                error := some (.ambiguous_branch nodeId) }
          else
            match kids[1]? with
            | some next =>
              let rest := evalFrom t input fuel (nodeId :: visited) next
              { path := nodeId :: rest.path
                outcome := rest.outcome
                trace := { node_id := nodeId, node_label := node.label,
                           node_type := node.type,
                           condition_evaluated := some (.condValue r),
                           next_node_id := some next } :: rest.trace
                error := rest.error }
            | none =>
              { path := [nodeId], outcome := none
                trace := [{ node_id := nodeId, node_label := node.label,
                            node_type := node.type,
                            condition_evaluated := some (.condValue r),
                            next_node_id := none }]
                error := some (.no_false_branch nodeId) }
        | .score =>
          let v := match node.score_expression with
                   | some e => evalScoreExpr e input
                   | none => none
          match (node.children.getD [])[0]? with
          | some next =>
            let rest := evalFrom t input fuel (nodeId :: visited) next
            { path := nodeId :: rest.path
              outcome := rest.outcome
              trace := { node_id := nodeId, node_label := node.label,
                         node_type := node.type,
                         condition_evaluated := some (.scoreValue v),
                         next_node_id := some next } :: rest.trace
              error := rest.error }
          | none =>
            { path := [nodeId], outcome := none
              trace := [{ node_id := nodeId, node_label := node.label,
                          node_type := node.type,
                          condition_evaluated := some (.scoreValue v),
                          next_node_id := none }]
              error := some (.ambiguous_branch nodeId) }
        | .root | .question =>
          match node.children.getD [] with
          | [next] =>
            let rest := evalFrom t input fuel (nodeId :: visited) next
            { path := nodeId :: rest.path
              outcome := rest.outcome
              trace := { node_id := nodeId, node_label := node.label,
                         node_type := node.type, condition_evaluated := none,
                         next_node_id := some next } :: rest.trace
              error := rest.error }
          | _ =>
            { path := [nodeId], outcome := none
              trace := [{ node_id := nodeId, node_label := node.label,
                          node_type := node.type, condition_evaluated := none,
                          next_node_id := none }]
              error := some (.ambiguous_branch nodeId) }

/-- Modelled from the spec: `evaluate(tree, input_values)` (§4.3), the
missing backend Evaluator — start at `root_id` with an empty visited set
and fuel `|nodes| + 1`. -/
def evaluate (t : DecisionTreeDmn) (input : Obj JsVal) : EvalResult :=
  evalFrom t input (t.nodes.length + 1) [] t.root_node_id

/-- C2: the Evaluator is a pure function of `(tree, input_values)` — two
calls on identical trees and identical input maps return an identical
path, an identical outcome, and an identical trace. -/
theorem C2_evaluate_deterministic (t₁ t₂ : DecisionTreeDmn) (v₁ v₂ : Obj JsVal)
    (ht : t₁ = t₂) (hv : v₁ = v₂) :
    (evaluate t₁ v₁).path = (evaluate t₂ v₂).path ∧
    (evaluate t₁ v₁).outcome = (evaluate t₂ v₂).outcome ∧
    (evaluate t₁ v₁).trace = (evaluate t₂ v₂).trace := by
  subst ht
  subst hv
  exact ⟨rfl, rfl, rfl⟩

/-- C2 witness: two calls of `evaluate` on the concrete two-node tree and
the same concrete input map agree on path, outcome and trace. -/
theorem C2_evaluate_deterministic_witness :
    (evaluate exTreeC1b [("spo2", JsVal.num 90)]).path
      = (evaluate exTreeC1b [("spo2", JsVal.num 90)]).path ∧
    (evaluate exTreeC1b [("spo2", JsVal.num 90)]).outcome
      = (evaluate exTreeC1b [("spo2", JsVal.num 90)]).outcome ∧
    (evaluate exTreeC1b [("spo2", JsVal.num 90)]).trace
      = (evaluate exTreeC1b [("spo2", JsVal.num 90)]).trace :=
  C2_evaluate_deterministic exTreeC1b exTreeC1b
    [("spo2", JsVal.num 90)] [("spo2", JsVal.num 90)] rfl rfl

end Caire
